import Mathlib
/-!
Verification of the instagram-to-nostr worker pipeline.

This file shallowly embeds the parts of `src/worker/worker.py` and
`src/worker/db.py` that the claims C1..C10 are about:

* the event signer (`sign_event`, `schnorr_sign`, `tagged_hash`,
  `get_public_key_bytes`) together with SHA-256 (the behaviour of
  `hashlib.sha256`) and Python's `json.dumps(..., separators=(",", ":"),
  ensure_ascii=False)`;
* the blob upload client (`upload_media_to_blossom`);
* the markdown image helpers (`extract_markdown_images`,
  `replace_markdown_images`, which both use the regex
  `!\[.*?\]\(([^\s\)]+)` with Python `re` semantics);
* the gift-article processor (`process_gift_articles`,
  `increment_gift_article_attempts`);
* the SQLite work queue (`claim_next_pending_task`,
  `claim_next_pending_migration` and friends, `update_task_status`,
  `update_job_status`, the stale-recovery functions), with table states
  modelled as lists of rows and timestamps as integers.

Bytes are modelled as `List ℕ` (each element a value `< 256` at every
producer), machine words as `ℕ` reduced `% 2^32` where the source wraps.

The elliptic-curve group used by `schnorr_sign` (the `ecdsa` library's
secp256k1 arithmetic) is modelled as an additive commutative group with a
distinguished generator of known additive order, an x-coordinate function
and a Y-parity predicate; the facts the signing/verification argument needs
about these are isolated in `SchnorrAx` and discharged on a small concrete
instance by the witnesses.
-/

/-! ## Byte-level utilities

`int_from_bytes` / `bytes_from_int` from worker.py (`int.from_bytes(b, 'big')`
and `x.to_bytes(32, 'big')`, the latter raising `OverflowError` outside
`[0, 2^256)`, modelled as `none`). -/

/-- Big-endian byte interpretation: Python `int.from_bytes(b, byteorder='big')`. -/
def intFromBytes (b : List ℕ) : ℕ :=
  b.foldl (fun a d => a * 256 + d) 0
/-- Big-endian fixed-width byte string of a natural number (helper for
`bytes_from_int`; exact when `x < 256 ^ len`). -/
def natToBytesBE : ℕ → ℕ → List ℕ
  | 0, _ => []
  | len + 1, x => natToBytesBE len (x / 256) ++ [x % 256]
/-- worker.py `bytes_from_int`: `x.to_bytes(32, byteorder='big')`; Python raises
`OverflowError` for negative or too-large values, modelled as `none`. -/
def bytesFromInt (x : ℤ) : Option (List ℕ) :=
  if 0 ≤ x ∧ x < 2 ^ 256 then some (natToBytesBE 32 x.toNat) else none
/-- Python `bytes(a ^ b for a, b in zip(t, rand))` (length = shorter input). -/
def xorBytes (a b : List ℕ) : List ℕ :=
  List.zipWith (fun x y => Nat.xor x y) a b
/-! ## Hex strings (`bytes.hex()` / `hexdigest()`: lowercase) -/

def hexDigitChars : List Char :=
  "0123456789abcdef".toList
def hexChar (n : ℕ) : Char := hexDigitChars.getD (n % 16) '0'
def byteToHexChars (b : ℕ) : List Char := [hexChar (b / 16), hexChar b]
/-- Lowercase hex rendering of a byte string (Python `bytes.hex()` /
`hashlib...hexdigest()`). -/
def bytesToHex (bs : List ℕ) : String :=
  String.mk (bs.map byteToHexChars).flatten
def isLowerHexChar (c : Char) : Bool := c ∈ hexDigitChars
/-! ## UTF-8 encoding (Python `str.encode()`) -/

def utf8EncodeChar (c : Char) : List ℕ :=
  let n := c.toNat
  if n < 0x80 then [n]
  else if n < 0x800 then [0xC0 + n / 64, 0x80 + n % 64]
  else if n < 0x10000 then [0xE0 + n / 4096, 0x80 + n / 64 % 64, 0x80 + n % 64]
  else [0xF0 + n / 262144, 0x80 + n / 4096 % 64, 0x80 + n / 64 % 64, 0x80 + n % 64]
def utf8Encode (s : String) : List ℕ := (s.data.map utf8EncodeChar).flatten
/-! ## SHA-256 (the behaviour of `hashlib.sha256(...).digest()`) -/

/-- Truncate to a 32-bit word. -/
def w32 (x : ℕ) : ℕ := x % 4294967296
/-- 32-bit right rotation. -/
def rotr32 (k x : ℕ) : ℕ := w32 (x / 2 ^ k + x % 2 ^ k * 2 ^ (32 - k))
def shaCh (x y z : ℕ) : ℕ := Nat.xor (Nat.land x y) (Nat.land (Nat.xor x 4294967295) z)
def shaMaj (x y z : ℕ) : ℕ := Nat.xor (Nat.xor (Nat.land x y) (Nat.land x z)) (Nat.land y z)
def bigSigma0 (x : ℕ) : ℕ := Nat.xor (Nat.xor (rotr32 2 x) (rotr32 13 x)) (rotr32 22 x)
def bigSigma1 (x : ℕ) : ℕ := Nat.xor (Nat.xor (rotr32 6 x) (rotr32 11 x)) (rotr32 25 x)
def smallSigma0 (x : ℕ) : ℕ := Nat.xor (Nat.xor (rotr32 7 x) (rotr32 18 x)) (x / 2 ^ 3)
def smallSigma1 (x : ℕ) : ℕ := Nat.xor (Nat.xor (rotr32 17 x) (rotr32 19 x)) (x / 2 ^ 10)
def shaK : List ℕ :=
  [1116352408, 1899447441, 3049323471, 3921009573, 961987163, 1508970993, 2453635748, 2870763221,
   3624381080, 310598401, 607225278, 1426881987, 1925078388, 2162078206, 2614888103, 3248222580,
   3835390401, 4022224774, 264347078, 604807628, 770255983, 1249150122, 1555081692, 1996064986,
   2554220882, 2821834349, 2952996808, 3210313671, 3336571891, 3584528711, 113926993, 338241895,
   666307205, 773529912, 1294757372, 1396182291, 1695183700, 1986661051, 2177026350, 2456956037,
   2730485921, 2820302411, 3259730800, 3345764771, 3516065817, 3600352804, 4094571909, 275423344,
   430227734, 506948616, 659060556, 883997877, 958139571, 1322822218, 1537002063, 1747873779,
   1955562222, 2024104815, 2227730452, 2361852424, 2428436474, 2756734187, 3204031479, 3329325298]
structure Sha256State where
  a : ℕ
  b : ℕ
  c : ℕ
  d : ℕ
  e : ℕ
  f : ℕ
  g : ℕ
  h : ℕ
deriving Repr, DecidableEq
def shaInit : Sha256State :=
  ⟨0x6a09e667, 0xbb67ae85, 0x3c6ef372, 0xa54ff53a, 0x510e527f, 0x9b05688c, 0x1f83d9ab, 0x5be0cd19⟩
/-- Chunk a 64-byte block into 16 big-endian 32-bit words. -/
def bytesToWordsBE : List ℕ → List ℕ
  | b0 :: b1 :: b2 :: b3 :: rest =>
      (((b0 * 256 + b1) * 256 + b2) * 256 + b3) :: bytesToWordsBE rest
  | _ => []
/-- Extend the 16-word schedule to 64 words (fuel counts remaining extensions). -/
def extendSchedule : ℕ → List ℕ → List ℕ
  | 0, ws => ws
  | fuel + 1, ws =>
      let n := ws.length
      let next := w32 (smallSigma1 (ws.getD (n - 2) 0) + ws.getD (n - 7) 0 +
        smallSigma0 (ws.getD (n - 15) 0) + ws.getD (n - 16) 0)
      extendSchedule fuel (ws ++ [next])
def shaRound (s : Sha256State) (kw : ℕ × ℕ) : Sha256State :=
  let t1 := w32 (s.h + bigSigma1 s.e + shaCh s.e s.f s.g + kw.1 + kw.2)
  let t2 := w32 (bigSigma0 s.a + shaMaj s.a s.b s.c)
  ⟨w32 (t1 + t2), s.a, s.b, s.c, w32 (s.d + t1), s.e, s.f, s.g⟩
def compressBlock (st : Sha256State) (block : List ℕ) : Sha256State :=
  let ws := extendSchedule 48 (bytesToWordsBE block)
  let r := (shaK.zip ws).foldl shaRound st
  ⟨w32 (st.a + r.a), w32 (st.b + r.b), w32 (st.c + r.c), w32 (st.d + r.d),
   w32 (st.e + r.e), w32 (st.f + r.f), w32 (st.g + r.g), w32 (st.h + r.h)⟩
/-- Process the padded message 64-byte block by block (fuel-based structural
recursion so that the kernel can evaluate it; any `fuel ≥` the block count
gives the fixpoint, and `sha256` passes the byte length). -/
def processBlocks : ℕ → List ℕ → Sha256State → Sha256State
  | 0, _, st => st
  | _, [], st => st
  | fuel + 1, b :: rest, st =>
      processBlocks fuel ((b :: rest).drop 64) (compressBlock st ((b :: rest).take 64))
/-- SHA-256 padding: append `0x80`, zeros to 56 mod 64, 8-byte big-endian bit length. -/
def padMessage (msg : List ℕ) : List ℕ :=
  let l := msg.length
  let zeros := (119 - l % 64) % 64
  msg ++ [0x80] ++ List.replicate zeros 0 ++ natToBytesBE 8 (8 * l)
def wordToBytesBE (x : ℕ) : List ℕ := natToBytesBE 4 x
/-- `hashlib.sha256(msg).digest()`: the 32-byte SHA-256 digest. -/
def sha256 (msg : List ℕ) : List ℕ :=
  let padded := padMessage msg
  let st := processBlocks padded.length padded shaInit
  (([st.a, st.b, st.c, st.d, st.e, st.f, st.g, st.h]).map wordToBytesBE).flatten
set_option maxRecDepth 10000
/-! ## Python `json.dumps(..., separators=(",", ":"), ensure_ascii=False)`

Only the shapes that occur in the serialized array are needed: strings,
integers and (nested) lists of strings.  With `ensure_ascii=False` CPython
escapes `"` and `\`, uses the short escapes for backspace/tab/newline/
formfeed/carriage-return, escapes the remaining control characters as
`\u00xx` (lowercase hex) and emits every other character verbatim. -/

def jsonEscapeChar (c : Char) : List Char :=
  if c = '"' then ['\\', '"']
  else if c = '\\' then ['\\', '\\']
  else if c = Char.ofNat 8 then ['\\', 'b']
  else if c = Char.ofNat 9 then ['\\', 't']
  else if c = Char.ofNat 10 then ['\\', 'n']
  else if c = Char.ofNat 12 then ['\\', 'f']
  else if c = Char.ofNat 13 then ['\\', 'r']
  else if c.toNat < 32 then ['\\', 'u', '0', '0', hexChar (c.toNat / 16), hexChar c.toNat]
  else [c]
def pyJsonStr (s : String) : String :=
  "\"" ++ String.mk (s.data.map jsonEscapeChar).flatten ++ "\""
/-- Decimal digits of a natural number (fuel-based so the kernel reduces it). -/
def natDecAux : ℕ → ℕ → List Char → List Char
  | 0, _, acc => acc
  | fuel + 1, n, acc =>
      if n = 0 then acc else natDecAux fuel (n / 10) (Char.ofNat (48 + n % 10) :: acc)
def natDec (n : ℕ) : String :=
  if n = 0 then "0" else String.mk (natDecAux (n + 1) n [])
/-- Python's decimal rendering of an `int`. -/
def intDec (i : ℤ) : String :=
  if i < 0 then "-" ++ natDec (-i).toNat else natDec i.toNat
def pyJsonStrList (l : List String) : String :=
  "[" ++ String.intercalate "," (l.map pyJsonStr) ++ "]"
def pyJsonTags (tags : List (List String)) : String :=
  "[" ++ String.intercalate "," (tags.map pyJsonStrList) ++ "]"
/-! ## Nostr events and `sign_event` (worker.py) -/

/-- The fields of an event that enter the id serialization (the caller-built
dict before `sign_event` adds `id` and `sig`). -/
structure EventCore where
  kind : ℤ
  pubkey : String
  created_at : ℤ
  tags : List (List String)
  content : String
deriving Repr, DecidableEq
structure SignedEvent where
  core : EventCore
  id : String
  sig : String
deriving Repr, DecidableEq
/-- worker.py `sign_event`'s serialization:
`json.dumps([0, pubkey, created_at, kind, tags, content],
separators=(",", ":"), ensure_ascii=False)`. -/
def serializeEvent (ev : EventCore) : String :=
  "[0," ++ pyJsonStr ev.pubkey ++ "," ++ intDec ev.created_at ++ "," ++
    intDec ev.kind ++ "," ++ pyJsonTags ev.tags ++ "," ++ pyJsonStr ev.content ++ "]"
/-! ## BIP-340 Schnorr signing (worker.py `schnorr_sign` and helpers)

The secp256k1 arithmetic that worker.py obtains from the `ecdsa` library
(point addition, scalar multiplication, `.x()`, `.y() % 2`) is abstracted as
an additive commutative group with a distinguished generator, an x-coordinate
function and a Y-parity predicate.  `SchnorrAx` lists the facts about this
interface that the correctness argument uses; `secp256k1` satisfies all of
them (prime group order `n`, `x(-P) = x(P)`, opposite parity of `P` and `-P`
away from infinity, `lift_x` inverting `x` on even-Y points). -/

structure SchnorrGroup (Pt : Type) [AddCommGroup Pt] where
  g : Pt
  n : ℕ
  xC : Pt → ℕ
  evenY : Pt → Bool
  liftX : ℕ → Option Pt
structure SchnorrAx {Pt : Type} [AddCommGroup Pt] (C : SchnorrGroup Pt) : Prop where
  n_pos : 0 < C.n
  ord : addOrderOf C.g = C.n
  even_neg : ∀ P : Pt, P ≠ 0 → C.evenY (-P) = !C.evenY P
  x_neg : ∀ P : Pt, C.xC (-P) = C.xC P
  lift_even : ∀ P : Pt, P ≠ 0 → C.evenY P = true → C.liftX (C.xC P) = some P
/-- worker.py `tagged_hash`. -/
def taggedHash (tag : String) (msg : List ℕ) : List ℕ :=
  sha256 (sha256 (utf8Encode tag) ++ sha256 (utf8Encode tag) ++ msg)
/-- worker.py `get_public_key_bytes`: the first 32 bytes of the uncompressed
public key, i.e. the big-endian x-coordinate of `d·G`. -/
def getPublicKeyBytes {Pt : Type} [AddCommGroup Pt] (C : SchnorrGroup Pt)
    (secretKey : List ℕ) : Option (List ℕ) :=
  bytesFromInt ((C.xC (intFromBytes secretKey • C.g) : ℤ))
/-- worker.py `schnorr_sign`, the local `d` after the even-Y negation:
`d = int_from_bytes(secret)`, then `if not has_even_y(d*G): d = ORDER - d`
(computed in Python's unbounded integers, hence `ℤ`). -/
def schnorrSecret {Pt : Type} [AddCommGroup Pt] (C : SchnorrGroup Pt)
    (secretKey : List ℕ) : ℤ :=
  if C.evenY (intFromBytes secretKey • C.g) then (intFromBytes secretKey : ℤ)
  else (C.n : ℤ) - (intFromBytes secretKey : ℤ)
/-- worker.py `schnorr_sign`, the local `k0`: BIP-340 nonce derivation with
`aux = sha256(msg)`, `t = d ⊕ tagged_hash("BIP0340/aux", aux)`. -/
def schnorrK0 {Pt : Type} [AddCommGroup Pt] (C : SchnorrGroup Pt)
    (t pk msg : List ℕ) : ℕ :=
  intFromBytes (taggedHash "BIP0340/nonce"
    (xorBytes t (taggedHash "BIP0340/aux" (sha256 msg)) ++ pk ++ msg)) % C.n
/-- worker.py `schnorr_sign`, the local `k`: the nonce after the even-Y
negation of `R = k0*G`. -/
def schnorrK {Pt : Type} [AddCommGroup Pt] (C : SchnorrGroup Pt) (k0 : ℕ) : ℕ :=
  if C.evenY (k0 • C.g) then k0 else C.n - k0
/-- worker.py `schnorr_sign`, the local `e`: the tagged challenge
`int(tagged_hash("BIP0340/challenge", rx || pk || msg)) % ORDER`. -/
def schnorrE {Pt : Type} [AddCommGroup Pt] (C : SchnorrGroup Pt)
    (rx pk msg : List ℕ) : ℕ :=
  intFromBytes (taggedHash "BIP0340/challenge" (rx ++ pk ++ msg)) % C.n
/-- worker.py `schnorr_sign`.  `none` models the Python exceptions: the
`ValueError` on `k0 == 0`, the `ecdsa` failure on the point at infinity, and
`OverflowError` from `bytes_from_int` outside `[0, 2^256)`.  The locals of
the Python function are the helper definitions above:
`pk = bytes_from_int(P.x())`, `t = bytes_from_int(d)`, the `k0 == 0` check,
`rx = bytes_from_int(R.x())`, `s = (k + e*d) % ORDER`, result `rx + s`. -/
def schnorrSign {Pt : Type} [AddCommGroup Pt] [DecidableEq Pt] (C : SchnorrGroup Pt)
    (secretKey msg : List ℕ) : Option (List ℕ) :=
  if intFromBytes secretKey • C.g = 0 then none else
  (bytesFromInt ((C.xC (intFromBytes secretKey • C.g) : ℤ))).bind fun pk =>
  (bytesFromInt (schnorrSecret C secretKey)).bind fun t =>
  if schnorrK0 C t pk msg = 0 then none else
  (bytesFromInt ((C.xC (schnorrK0 C t pk msg • C.g) : ℤ))).bind fun rx =>
  (bytesFromInt (((schnorrK C (schnorrK0 C t pk msg) : ℤ) +
      (schnorrE C rx pk msg : ℤ) * schnorrSecret C secretKey) % (C.n : ℤ))).map fun sb =>
  rx ++ sb
/-- Modelled from the spec: BIP-340 Schnorr verification (`VerifySchnorr`),
which the repository does not implement — the spec requires
`VerifySchnorr(pubkey, id, sig) == true` for all signed events.  Computes
`P = lift_x(pk)`, the tagged challenge `e`, `R = s·G - e·P`, and fails on
`s ≥ n`, failed lift, infinite `R`, odd-Y `R`, or an x-coordinate mismatch.
(The field-size check `r < p` is not expressible in this abstract
x-coordinate model and is omitted.) -/
def verifySchnorr {Pt : Type} [AddCommGroup Pt] [DecidableEq Pt] (C : SchnorrGroup Pt)
    (pk msg sig : List ℕ) : Bool :=
  if sig.length ≠ 64 then false else
  let r := intFromBytes (sig.take 32)
  let s := intFromBytes (sig.drop 32)
  if C.n ≤ s then false else
  match C.liftX (intFromBytes pk) with
  | none => false
  | some P =>
    let e := intFromBytes (taggedHash "BIP0340/challenge" (sig.take 32 ++ pk ++ msg)) % C.n
    let R := s • C.g - e • P
    if R = 0 then false
    else if C.evenY R = false then false
    else decide (C.xC R = r)
/-- worker.py `sign_event`: serialize, hash to get the id
(`event["id"] = sha256(serialized.encode()).hexdigest()`), then Schnorr-sign
the id bytes (`msg_hash = bytes.fromhex(event_id)` recovers exactly the
digest) and store `sig.hex()`. -/
def signEvent {Pt : Type} [AddCommGroup Pt] [DecidableEq Pt] (C : SchnorrGroup Pt)
    (secretKey : List ℕ) (ev : EventCore) : Option SignedEvent :=
  (schnorrSign C secretKey (sha256 (utf8Encode (serializeEvent ev)))).map fun sig =>
    ⟨ev, bytesToHex (sha256 (utf8Encode (serializeEvent ev))), bytesToHex sig⟩
/-! ### A concrete instance of the group interface

A 5-element instance used by the witnesses to discharge the `SchnorrAx`
hypotheses on a fully computable structure. -/

def toyCurve : SchnorrGroup (ZMod 5) where
  g := 1
  n := 5
  xC := fun P => if P.val ≤ 2 then P.val else 5 - P.val
  evenY := fun P => decide (P.val ≤ 2)
  liftX := fun m => if m = 1 then some 1 else if m = 2 then some 2 else none
/-! ## C2: signatures verify under BIP-340 -/

/-! ## String helpers (Python `startswith`, `in`, `str.replace`, `str.lower`) -/

/-- `pat` is a prefix of the second list (Python `str.startswith`). -/
def leadsWith : List Char → List Char → Bool
  | [], _ => true
  | _ :: _, [] => false
  | p :: ps, c :: cs => p = c && leadsWith ps cs
/-- Python `needle in haystack` for strings (substring containment). -/
def containsSub : List Char → List Char → Bool
  | [], needle => needle.isEmpty
  | h :: cs, needle => leadsWith needle (h :: cs) || containsSub cs needle
/-- Python `subject.replace(pat, rep)`: replace every non-overlapping
occurrence left to right (fuel-based; `replaceAll` passes the subject length,
which bounds the number of steps since `pat ≠ []` consumes at least one
character per step). -/
def replaceAllAux (pat rep : List Char) : ℕ → List Char → List Char
  | 0, s => s
  | _ + 1, [] => []
  | fuel + 1, c :: cs =>
      if leadsWith pat (c :: cs) then rep ++ replaceAllAux pat rep fuel ((c :: cs).drop pat.length)
      else c :: replaceAllAux pat rep fuel cs
def replaceAll (s pat rep : List Char) : List Char :=
  if pat = [] then s else replaceAllAux pat rep s.length s
/-! ## Markdown image regex (worker.py `extract_markdown_images` /
`replace_markdown_images`)

Both functions use the Python regex `!\[.*?\]\(([^\s\)]+)` (`re.findall` /
`re.sub`).  The matcher below reproduces `re`'s behaviour for this pattern:
scan left to right; at `![`, the lazy `.*?` (which cannot cross a newline)
extends to the first `](` that is followed by at least one character that is
neither whitespace nor `)`; the capture group takes the maximal such run; a
position where no such `](` exists on the line fails, and scanning resumes
one character later.  Only ASCII whitespace is modelled for `\s`. -/

def isPyWhitespace (c : Char) : Bool :=
  c = ' ' || c = '\t' || c = '\n' || c = '\r' || c = '\x0b' || c = '\x0c'
/-- A character the capture group `([^\s\)]+)` accepts. -/
def urlChar (c : Char) : Bool := !isPyWhitespace c && c != ')'
/-- Backtracking search for `.*?\]\(([^\s\)]+)` after an opening `![`:
returns `(alt, url, rest)` on success. -/
def scanAlt : List Char → Option (List Char × List Char × List Char)
  | [] => none
  | c :: cs =>
      if c = ']' ∧ cs.head? = some '(' ∧ cs.tail.takeWhile urlChar ≠ [] then
        some ([], cs.tail.takeWhile urlChar, cs.tail.dropWhile urlChar)
      else if c = '\n' then none
      else (scanAlt cs).map fun r => (c :: r.1, r.2.1, r.2.2)
/-- A segment of a markdown document: a literal character outside any match,
or one regex match `![alt](url` with its captured URL. -/
inductive MdSeg where
  | lit (c : Char)
  | img (alt url : List Char)
deriving Repr, DecidableEq

/-- The text a segment stands for (for a match, the span the regex matched:
from `![` to the end of the captured URL, the closing `)` excluded). -/
def segChars : MdSeg → List Char
  | .lit c => [c]
  | .img alt url => '!' :: '[' :: (alt ++ ']' :: '(' :: url)
/-- Left-to-right non-overlapping scan of a document into segments
(fuel-based; every step consumes at least one character, so the document
length is enough fuel). -/
def scanMdAux : ℕ → List Char → List MdSeg
  | 0, _ => []
  | _ + 1, [] => []
  | fuel + 1, c :: rest =>
      if c = '!' ∧ rest.head? = some '[' then
        match scanAlt rest.tail with
        | some (alt, url, rest') => .img alt url :: scanMdAux fuel rest'
        | none => .lit c :: scanMdAux fuel rest
      else .lit c :: scanMdAux fuel rest
def scanMd (md : List Char) : List MdSeg := scanMdAux md.length md
/-- worker.py `extract_markdown_images`: `re.findall` returns the captured
URLs in match order. -/
def extractMarkdownImages (markdown : String) : List String :=
  (scanMd markdown.toList).filterMap fun s =>
    match s with
    | .img _ url => some (String.mk url)
    | .lit _ => none
/-- Python `dict` lookup on the url mapping (`original_url in url_mapping`
and `url_mapping[original_url]`). -/
def lookupUrl (m : List (String × String)) (u : String) : Option String :=
  match m with
  | [] => none
  | (k, v) :: rest => if k = u then some v else lookupUrl rest u
/-- worker.py `replace_markdown_images`'s `replacer`: for a match whose URL
is a key of the mapping, `full_match.replace(original_url, mapped)`;
otherwise the match is returned verbatim.  Literal text is untouched. -/
def replaceSeg (urlMapping : List (String × String)) (s : MdSeg) : List Char :=
  match s with
  | .lit c => [c]
  | .img alt url =>
      match lookupUrl urlMapping (String.mk url) with
      | some v => replaceAll (segChars (.img alt url)) url v.toList
      | none => segChars (.img alt url)
/-- worker.py `replace_markdown_images` (`re.sub` with `replacer`). -/
def replaceMarkdownImages (markdown : String) (urlMapping : List (String × String)) : String :=
  String.mk ((scanMd markdown.toList).map (replaceSeg urlMapping)).flatten
/-! ## Blob upload client (worker.py `upload_media_to_blossom`)

The network is a parameter: `mediaBytes` is what `client.get(media_url)`
returned (after any `ytdl:` resolution), and `BlossomEnv` carries the two
possible upload responses (the direct Blossom PUT for images, the backend
`/stream-upload` POST for videos).  The returned record also carries the
`X-SHA-256` header value that was sent, when the direct PUT was used. -/

def BLOSSOM_SERVER : String := "https://blossom.primal.net"
structure BlossomEnv where
  contentType : String
  imgStatus : ℕ
  imgUrlField : Option String
  imgRespText : String
  vidStatus : ℕ
  vidBlossomUrl : String
  vidMimeField : Option String
  vidRespText : String
deriving Repr, DecidableEq
structure UploadResult where
  url : String
  hash : String
  size : ℕ
  mime_type : String
  sentXSha256 : Option String
deriving Repr, DecidableEq
def uploadMediaToBlossom (env : BlossomEnv) (mediaBytes : List ℕ)
    (mediaType : String) : Except String UploadResult :=
  let fileHash := bytesToHex (sha256 mediaBytes)
  let fileSize := mediaBytes.length
  let mimeType :=
    if mediaType = "video" then
      (if containsSub env.contentType.toList "video".toList then env.contentType
       else "video/mp4")
    else
      (if containsSub env.contentType.toList "image".toList then env.contentType
       else "image/jpeg")
  if mediaType = "video" then
    if env.vidStatus ≠ 200 then Except.error ("Upload failed: " ++ env.vidRespText)
    else Except.ok
      { url := env.vidBlossomUrl, hash := fileHash, size := fileSize,
        mime_type := env.vidMimeField.getD mimeType, sentXSha256 := none }
  else
    if env.imgStatus ≠ 200 ∧ env.imgStatus ≠ 201 then
      Except.error ("Upload failed: " ++ env.imgRespText)
    else Except.ok
      { url :=
          match env.imgUrlField with
          | some u => if u = "" then BLOSSOM_SERVER ++ "/" ++ fileHash else u
          | none => BLOSSOM_SERVER ++ "/" ++ fileHash,
        hash := fileHash, size := fileSize, mime_type := mimeType,
        sentXSha256 := some fileHash }
/-! ## Work-queue rows (db.py)

Tables are modelled as lists of rows; `ORDER BY created_at ASC LIMIT 1` as
the first row with the minimal `created_at`; SQLite datetimes as integer
seconds, so `updated_at < datetime('now', '-N minutes')` becomes
`updated_at < now - N*60`. -/

structure QRow where
  id : String
  status : String
  created_at : Int
  updated_at : Int
deriving Repr, DecidableEq
/-- `SELECT ... WHERE status = 'pending' ORDER BY created_at ASC LIMIT 1`. -/
def selectOldestPending : List QRow → Option QRow
  | [] => none
  | r :: rest =>
      match selectOldestPending rest with
      | none => if r.status = "pending" then some r else none
      | some b =>
          if r.status = "pending" ∧ r.created_at ≤ b.created_at then some r else some b
/-- The conditional claim update
`UPDATE <table> SET status = <claimed>[, updated_at = CURRENT_TIMESTAMP]
WHERE id = ? AND status = 'pending'`; returns the new table and `rowcount`. -/
def condClaim (rows : List QRow) (rid : String) (claimed : String) (touch : Bool)
    (now : Int) : List QRow × ℕ :=
  (rows.map fun r =>
    if r.id = rid ∧ r.status = "pending" then
      { r with status := claimed, updated_at := if touch then now else r.updated_at }
    else r,
   (rows.filter fun r => decide (r.id = rid ∧ r.status = "pending")).length)
/-- The `while True` select-then-conditionally-update loop shared by
`claim_next_pending_task` / `_proposal` / `_gift` / `_migration`.  `envs`
models the writes of concurrent workers, one applied between this worker's
SELECT and UPDATE of each iteration; when none remain the table can no
longer change under us, the conditional update necessarily succeeds, and the
Python loop terminates. -/
def claimLoop (claimed : String) (touch : Bool) :
    List (List QRow → List QRow) → List QRow → Int → Option QRow × List QRow
  | [], rows, now =>
      match selectOldestPending rows with
      | none => (none, rows)
      | some r => (some r, (condClaim rows r.id claimed touch now).1)
  | env :: rest, rows, now =>
      match selectOldestPending rows with
      | none => (none, rows)
      | some r =>
          if 0 < (condClaim (env rows) r.id claimed touch now).2 then
            (some r, (condClaim (env rows) r.id claimed touch now).1)
          else claimLoop claimed touch rest (condClaim (env rows) r.id claimed touch now).1 now
/-- db.py `claim_next_pending_task` on `video_tasks`: claimed status is
`'uploading'` and `updated_at` is NOT refreshed. -/
def claimNextPendingTask : List (List QRow → List QRow) → List QRow → Int →
    Option QRow × List QRow :=
  claimLoop "uploading" false
/-- db.py `claim_next_pending_proposal`: `'processing'`, no `updated_at`. -/
def claimNextPendingProposal : List (List QRow → List QRow) → List QRow → Int →
    Option QRow × List QRow :=
  claimLoop "processing" false
/-- db.py `claim_next_pending_gift`: `'processing'`, no `updated_at`. -/
def claimNextPendingGift : List (List QRow → List QRow) → List QRow → Int →
    Option QRow × List QRow :=
  claimLoop "processing" false
/-- db.py `claim_next_pending_migration`: `'processing'` AND
`updated_at = CURRENT_TIMESTAMP`. -/
def claimNextPendingMigration : List (List QRow → List QRow) → List QRow → Int →
    Option QRow × List QRow :=
  claimLoop "processing" true
/-! ## Stale recovery (db.py `reset_stale_processing_*`) -/

structure PRow where
  id : String
  status : String
  updated_at : Int
deriving Repr, DecidableEq
structure CRow where
  id : ℕ
  parentId : String
  status : String
deriving Repr, DecidableEq
structure JRow where
  id : String
  profile_published : Int
  updated_at : Int
deriving Repr, DecidableEq
/-- db.py `reset_stale_processing_proposals`: counts `status = 'processing'`
rows (no `updated_at` condition at all), and if any exist resets their
`'uploading'` child posts and then every `'processing'` proposal to
`'pending'`. -/
def resetStaleProcessingProposals (proposals : List PRow) (posts : List CRow) :
    ℕ × List PRow × List CRow :=
  let staleIds := (proposals.filter fun p => p.status = "processing").map (·.id)
  let count := (proposals.filter fun p => p.status = "processing").length
  (count,
   if 0 < count then
     proposals.map fun p =>
       if p.status = "processing" then { p with status := "pending" } else p
   else proposals,
   if 0 < count then
     posts.map fun c =>
       if c.status = "uploading" ∧ c.parentId ∈ staleIds then { c with status := "pending" }
       else c
   else posts)
/-- db.py `reset_stale_processing_gifts`: identical to the proposal variant,
over `gifts` / `gift_posts`. -/
def resetStaleProcessingGifts (gifts : List PRow) (posts : List CRow) :
    ℕ × List PRow × List CRow :=
  let staleIds := (gifts.filter fun p => p.status = "processing").map (·.id)
  let count := (gifts.filter fun p => p.status = "processing").length
  (count,
   if 0 < count then
     gifts.map fun p =>
       if p.status = "processing" then { p with status := "pending" } else p
   else gifts,
   if 0 < count then
     posts.map fun c =>
       if c.status = "uploading" ∧ c.parentId ∈ staleIds then { c with status := "pending" }
       else c
   else posts)
/-- db.py `reset_stale_processing_migrations`: only migrations `'processing'`
for longer than `older_than_minutes` (default 30) are reset, together with
their `'uploading'` posts and articles. -/
def migStale (now olderThanMinutes : Int) (p : PRow) : Bool :=
  p.status = "processing" && decide (p.updated_at < now - olderThanMinutes * 60)
def resetStaleProcessingMigrations (migrations : List PRow) (posts articles : List CRow)
    (now olderThanMinutes : Int) : ℕ × List PRow × List CRow × List CRow :=
  let staleIds := (migrations.filter (migStale now olderThanMinutes)).map (·.id)
  let count := (migrations.filter (migStale now olderThanMinutes)).length
  (count,
   if 0 < count then
     migrations.map fun p =>
       if migStale now olderThanMinutes p then { p with status := "pending" } else p
   else migrations,
   if 0 < count then
     posts.map fun c =>
       if c.status = "uploading" ∧ c.parentId ∈ staleIds then { c with status := "pending" }
       else c
   else posts,
   if 0 < count then
     articles.map fun c =>
       if c.status = "uploading" ∧ c.parentId ∈ staleIds then { c with status := "pending" }
       else c
   else articles)
/-- db.py `reset_stale_processing_profiles`: jobs with
`profile_published = -1` older than `older_than_minutes` (default 10) go
back to `0`; the update's `rowcount` is returned. -/
def resetStaleProcessingProfiles (jobs : List JRow) (now olderThanMinutes : Int) :
    ℕ × List JRow :=
  ((jobs.filter fun j =>
      decide (j.profile_published = -1 ∧ j.updated_at < now - olderThanMinutes * 60)).length,
   jobs.map fun j =>
     if j.profile_published = -1 ∧ j.updated_at < now - olderThanMinutes * 60 then
       { j with profile_published := 0 }
     else j)
/-! ## Video tasks: `update_task_status` and the `process_task` outcome -/

/-- `MAX_RETRIES = int(os.getenv("MAX_RETRIES", "3"))` (default). -/
def MAX_RETRIES : ℕ := 3
structure TaskRow where
  id : String
  status : String
  media_items : List String
  blossom_url : Option String
  blossom_urls : Option (List String)
  nostr_event_id : Option String
  error : Option String
  retry_count : ℕ
deriving Repr, DecidableEq
/-- db.py `update_task_status`: one UPDATE that always writes `status`,
`blossom_url`, `blossom_urls`, `nostr_event_id` and `error` (the omitted
Python keyword arguments default to `None`/NULL), incrementing
`retry_count` only when `increment_retry` is set.  `blossom_urls` is stored
as JSON text of a list; it is modelled decoded. -/
def updateTaskStatus (row : TaskRow) (status : String) (blossom_url : Option String)
    (blossom_urls : Option (List String)) (nostr_event_id : Option String)
    (error : Option String) (increment_retry : Bool) : TaskRow :=
  { row with
    status := status
    blossom_url := blossom_url
    blossom_urls := blossom_urls
    nostr_event_id := nostr_event_id
    error := error
    retry_count := if increment_retry then row.retry_count + 1 else row.retry_count }
/-- `asyncio.gather` over the media uploads: all results, or the first
exception failing the whole post. -/
def gatherAll : List (Option String) → Option (List String)
  | [] => some []
  | none :: _ => none
  | some u :: rest => (gatherAll rest).map (u :: ·)
/-- worker.py `process_task`'s exception handler: retry while
`retry_count < MAX_RETRIES` (back to `'pending'`, incrementing the counter),
otherwise `'error'`. -/
def taskFailPath (row : TaskRow) (msg : String) : TaskRow :=
  if row.retry_count < MAX_RETRIES then
    updateTaskStatus row "pending" none none none (some msg) true
  else
    updateTaskStatus row "error" none none none (some ("Max retries exceeded: " ++ msg)) false
/-- worker.py `process_task`, as the final persisted row of the task:
uploads are the outcomes of `upload_media_to_blossom` per media item (in
order), `publishOk` whether at least one relay accepted.  On success the
task row passes through `'uploading'` and `'publishing'` (the latter already
persisting `blossom_url`/`blossom_urls`) and ends `'complete'`;
`blossom_urls` is only persisted when there is more than one URL
(`json.dumps(all_blossom_urls) if len(all_blossom_urls) > 1 else None`). -/
def processTaskFinal (row : TaskRow) (uploads : List (Option String)) (publishOk : Bool)
    (eventId : String) : TaskRow :=
  let row1 := updateTaskStatus row "uploading" none none none none false
  match gatherAll uploads with
  | none => taskFailPath row1 "upload failed"
  | some urls =>
      let bu := urls.head?
      let bus := if 1 < urls.length then some urls else none
      let row2 := updateTaskStatus row1 "publishing" bu bus none none false
      if publishOk then updateTaskStatus row2 "complete" bu bus (some eventId) none false
      else taskFailPath row2 "Failed to publish to any relay"
/-! ## Migration completion (db.py `update_job_status`) -/

structure JobRow where
  id : String
  status : String
  secret_key_hex : String
  updated_at : Int
deriving Repr, DecidableEq
/-- db.py `update_job_status`: recompute the job status from its tasks'
statuses.  With zero tasks SQLite's `SUM` is NULL, and the Python comparison
`row["total"] == row["completed"] + row["errors"]` raises `TypeError`
(`None + None`) before any UPDATE — modelled as `none`.  On a terminal
status the secret key is overwritten with the `'DELETED'` sentinel. -/
def updateJobStatus (childStatuses : List String) (job : JobRow) (now : Int) :
    Option JobRow :=
  if childStatuses = [] then none else
  let total := childStatuses.length
  let completed := (childStatuses.filter (· = "complete")).length
  let errors := (childStatuses.filter (· = "error")).length
  let newStatus :=
    if total = completed then "complete"
    else if total = completed + errors then (if 0 < completed then "complete" else "error")
    else "processing"
  some (
    if newStatus = "complete" ∨ newStatus = "error" then
      { job with status := newStatus, secret_key_hex := "DELETED", updated_at := now }
    else { job with status := newStatus, updated_at := now })
/-! ## Gift articles (worker.py `process_gift_articles`) -/

/-- `MAX_UPLOAD_ATTEMPTS = 5` (local constant of the article processors). -/
def MAX_UPLOAD_ATTEMPTS : ℕ := 5
structure GiftArticle where
  id : ℕ
  image_url : Option String
  blossom_image_url : Option String
  content_markdown : String
  inline_image_urls : Option (List (String × String))
  upload_attempts : ℕ
  status : String
deriving Repr, DecidableEq
/-- Python truthiness of an optional string column (`if image_url and ...`). -/
def truthyS : Option String → Bool
  | none => false
  | some s => !s.isEmpty
/-- The inline-image skip: `url.startswith("data:") or "blossom" in url.lower()`. -/
def skipInlineUrl (url : String) : Bool :=
  leadsWith "data:".toList url.toList ||
    containsSub (url.toList.map Char.toLower) "blossom".toList
/-- The locals of one iteration of `process_gift_articles`:
`attempts` (after `increment_gift_article_attempts`), `blossom_header`,
`url_mapping`, `upload_failed`.  `uploadRes` is the environment: the outcome
of `upload_media_to_blossom` per source URL (`none` = raised). -/
structure ArticleScan where
  attempts : ℕ
  header : Option String
  mapping : List (String × String)
  failed : Bool
deriving Repr, DecidableEq
/-- The body of the `for url in inline_urls` loop: skip data URIs and
already-on-Blossom URLs; a successful upload extends `url_mapping`, a failed
one sets `upload_failed`. -/
def inlineStep (uploadRes : String → Option String)
    (acc : List (String × String) × Bool) (url : String) :
    List (String × String) × Bool :=
  if skipInlineUrl url then acc
  else
    match uploadRes url with
    | some b => (acc.1 ++ [(url, b)], acc.2)
    | none => (acc.1, true)
def scanGiftArticle (uploadRes : String → Option String) (a : GiftArticle) : ArticleScan :=
  let attempts := a.upload_attempts + 1
  let headerFail : Option String × Bool :=
    if truthyS a.image_url ∧ ¬ truthyS a.blossom_image_url then
      match uploadRes (a.image_url.getD "") with
      | some b => (some b, false)
      | none => (none, true)
    else (a.blossom_image_url, false)
  let mres := (extractMarkdownImages a.content_markdown).foldl
    (inlineStep uploadRes) ([], headerFail.2)
  ⟨attempts, headerFail.1, mres.1, mres.2⟩
/-- One iteration of the `for article in articles` loop of
`process_gift_articles`: the article row after the iteration, and whether
the iteration left `all_succeeded` intact (`false` = failed below the
attempt cap, to be retried). -/
def processGiftArticle (uploadRes : String → Option String) (a : GiftArticle) :
    GiftArticle × Bool :=
  let sc := scanGiftArticle uploadRes a
  let updated :=
    if sc.mapping ≠ [] then replaceMarkdownImages a.content_markdown sc.mapping
    else a.content_markdown
  let written : GiftArticle :=
    { a with
      upload_attempts := sc.attempts
      blossom_image_url := sc.header
      content_markdown := updated
      inline_image_urls := if sc.mapping ≠ [] then some sc.mapping else none
      status := "ready" }
  if sc.failed then
    if MAX_UPLOAD_ATTEMPTS ≤ sc.attempts then (written, true)
    else ({ a with upload_attempts := sc.attempts }, false)
  else (written, true)
/-- worker.py `process_gift_articles` over all articles of a gift: the
updated rows and the `all_succeeded` flag it returns. -/
def processGiftArticles (uploadRes : String → Option String)
    (articles : List GiftArticle) : List GiftArticle × Bool :=
  (articles.map fun a => (processGiftArticle uploadRes a).1,
   articles.all fun a => (processGiftArticle uploadRes a).2)
/-- worker.py `process_gift`, after the posts stage: if
`process_gift_articles` reports a failure the gift returns to `'pending'`
for a later retry, otherwise it is marked `'ready'`. -/
def processGiftStatusAfterArticles (uploadRes : String → Option String)
    (articles : List GiftArticle) : String :=
  if (processGiftArticles uploadRes articles).2 then "ready" else "pending"
def giftArticleW : GiftArticle :=
  ⟨7, none, none, "![x](http://a/i.png)", none, 0, "uploading"⟩
/-! ## C8: blob upload hash, URL recovery, failure statuses -/

def envVid201 : BlossomEnv := ⟨"video/mp4", 0, none, "", 201, "https://b/u", none, "bad"⟩
def envImgEmptyUrl : BlossomEnv := ⟨"image/png", 200, some "", "", 0, "", none, ""⟩
def envVidOk : BlossomEnv := ⟨"video/mp4", 0, none, "", 200, "https://backend/b", none, ""⟩
def emptyHashHex : String :=
  "e3b0c44298fc1c149afbf4c8996fb92427ae41e4649b934ca495991b7852b855"
def envImgW : BlossomEnv := ⟨"image/png", 201, some "https://x/y", "", 0, "", none, ""⟩
def resImgW : UploadResult :=
  ⟨"https://x/y", emptyHashHex, 0, "image/png", some emptyHashHex⟩
/-! ## Witness inputs for the amended claim theorems -/

def qRowsW : List QRow := [⟨"t1", "pending", 5, 0⟩, ⟨"t2", "pending", 3, 0⟩]
def qRowW : QRow := ⟨"t2", "pending", 3, 0⟩
def migsW : List PRow := [⟨"m1", "processing", 100⟩]
def migRowW : PRow := ⟨"m1", "processing", 100⟩
def taskRowW : TaskRow := ⟨"t1", "pending", ["u1", "u2"], none, none, none, none, 0⟩
def finRowW : TaskRow := processTaskFinal taskRowW [some "a", some "b"] true "eid"
def jobRowW : JobRow := ⟨"j1", "processing", "sk", 0⟩

/-! # Theorems -/

theorem length_natToBytesBE (len x : ℕ) : (natToBytesBE len x).length = len := by
  induction len generalizing x with
  | zero => rfl
  | succ n ih => simp [natToBytesBE, ih]
theorem intFromBytes_append_singleton (l : List ℕ) (d : ℕ) :
    intFromBytes (l ++ [d]) = intFromBytes l * 256 + d := by
  simp [intFromBytes, List.foldl_append]
theorem intFromBytes_natToBytesBE (len x : ℕ) (h : x < 256 ^ len) :
    intFromBytes (natToBytesBE len x) = x := by
  induction len generalizing x with
  | zero =>
    simp [natToBytesBE, intFromBytes]
    omega
  | succ n ih =>
    rw [natToBytesBE, intFromBytes_append_singleton, ih (x / 256) ?_]
    · omega
    · have : 256 ^ (n + 1) = 256 ^ n * 256 := pow_succ 256 n
      omega
theorem hexChar_mem (n : ℕ) : hexChar n ∈ hexDigitChars := by
  unfold hexChar
  have h : n % 16 < 16 := by omega
  revert h
  generalize n % 16 = k
  intro h
  interval_cases k <;> decide
theorem bytesToHex_lower (bs : List ℕ) :
    (bytesToHex bs).data.all isLowerHexChar = true := by
  simp only [bytesToHex, List.all_eq_true]
  intro c hc
  simp only [List.mem_flatten, List.mem_map] at hc
  obtain ⟨l, ⟨b, _, rfl⟩, hcl⟩ := hc
  simp only [byteToHexChars, List.mem_cons, List.mem_singleton] at hcl
  rcases hcl with h | h | h
  · simpa [isLowerHexChar, h] using hexChar_mem (b / 16)
  · simpa [isLowerHexChar, h] using hexChar_mem b
  · cases h
/-- Sanity check against the standard SHA-256 test vector for the empty string. -/
theorem sha256_empty_vector :
    bytesToHex (sha256 []) =
      "e3b0c44298fc1c149afbf4c8996fb92427ae41e4649b934ca495991b7852b855" := by
  rfl
/-! ### Facts used by the signature-correctness proof -/

theorem bytesFromInt_some {x : ℤ} {b : List ℕ} (h : bytesFromInt x = some b) :
    0 ≤ x ∧ x < 2 ^ 256 ∧ b = natToBytesBE 32 x.toNat := by
  rw [bytesFromInt] at h
  by_cases hc : 0 ≤ x ∧ x < 2 ^ 256
  · rw [if_pos hc] at h
    injection h with h
    exact ⟨hc.1, hc.2, h.symm⟩
  · rw [if_neg hc] at h
    cases h
theorem twoPow256Z :
    (2 : ℤ) ^ 256 =
      115792089237316195423570985008687907853269984665640564039457584007913129639936 := by
  norm_num
theorem pow256_32 :
    (256 : ℕ) ^ 32 =
      115792089237316195423570985008687907853269984665640564039457584007913129639936 := by
  norm_num
theorem intFromBytes_of_bytesFromInt {x : ℤ} {b : List ℕ} (h : bytesFromInt x = some b) :
    (intFromBytes b : ℤ) = x := by
  obtain ⟨h0, hlt, hb⟩ := bytesFromInt_some h
  rw [twoPow256Z] at hlt
  have hx : x.toNat < 256 ^ 32 := by
    rw [pow256_32]
    omega
  rw [hb, intFromBytes_natToBytesBE 32 x.toNat hx]
  omega
theorem length_of_bytesFromInt {x : ℤ} {b : List ℕ} (h : bytesFromInt x = some b) :
    b.length = 32 := by
  obtain ⟨_, _, hb⟩ := bytesFromInt_some h
  rw [hb]
  exact length_natToBytesBE 32 x.toNat
theorem nsmul_mod_addOrderOf {Pt : Type} [AddCommGroup Pt] {g : Pt} {n : ℕ}
    (h : addOrderOf g = n) (a : ℕ) : (a % n) • g = a • g := by
  conv_rhs => rw [← Nat.div_add_mod a n]
  rw [add_nsmul, mul_nsmul]
  rw [show n • g = 0 from h ▸ addOrderOf_nsmul_eq_zero g, smul_zero, zero_add]
theorem nsmul_sub_eq_neg {Pt : Type} [AddCommGroup Pt] {g : Pt} {n k : ℕ}
    (h : addOrderOf g = n) (hk : k ≤ n) : (n - k) • g = -(k • g) := by
  have hsum : (n - k) • g + k • g = n • g := by
    rw [← add_nsmul, Nat.sub_add_cancel hk]
  rw [show n • g = 0 from h ▸ addOrderOf_nsmul_eq_zero g] at hsum
  exact eq_neg_of_add_eq_zero_left hsum
theorem nsmul_ne_zero_of_lt_order {Pt : Type} [AddCommGroup Pt] {g : Pt} {n k : ℕ}
    (h : addOrderOf g = n) (hk0 : k ≠ 0) (hkn : k < n) : k • g ≠ 0 := by
  intro hz
  have hdvd : n ∣ k := h ▸ addOrderOf_dvd_iff_nsmul_eq_zero.mpr hz
  have := Nat.le_of_dvd (Nat.pos_of_ne_zero hk0) hdvd
  omega
theorem zmod_natCast (k e dN n : ℕ) :
    (((k : ℤ) + (e : ℤ) * (dN : ℤ)) % (n : ℤ)) = (((k + e * dN) % n : ℕ) : ℤ) := by
  rw [Int.natCast_mod]
  push_cast
  ring_nf
theorem verify_core {Pt : Type} [AddCommGroup Pt] [DecidableEq Pt] (C : SchnorrGroup Pt)
    (hax : SchnorrAx C) (Peven : Pt) (dN : ℕ) (msg pk rx sb : List ℕ) (k0 e k s : ℕ)
    (hPe : Peven = dN • C.g) (hPnz : Peven ≠ 0) (hPev : C.evenY Peven = true)
    (hk0 : k0 ≠ 0) (hk0n : k0 < C.n)
    (hpk : bytesFromInt ((C.xC Peven : ℤ)) = some pk)
    (hrx : bytesFromInt ((C.xC (k0 • C.g) : ℤ)) = some rx)
    (he : e = intFromBytes (taggedHash "BIP0340/challenge" (rx ++ pk ++ msg)) % C.n)
    (hk : k = if C.evenY (k0 • C.g) then k0 else C.n - k0)
    (hs : s = (k + e * dN) % C.n)
    (hsb : bytesFromInt ((s : ℤ)) = some sb) :
    verifySchnorr C pk msg (rx ++ sb) = true ∧ (rx ++ sb).length = 64 := by
  have hlrx := length_of_bytesFromInt hrx
  have hlsb := length_of_bytesFromInt hsb
  have h64 : (rx ++ sb).length = 64 := by simp [hlrx, hlsb]
  have htake : (rx ++ sb).take 32 = rx := by rw [← hlrx]; exact List.take_left rx sb
  have hdrop : (rx ++ sb).drop 32 = sb := by rw [← hlrx]; exact List.drop_left rx sb
  have hsbv : intFromBytes sb = s := by exact_mod_cast intFromBytes_of_bytesFromInt hsb
  have hrxv : intFromBytes rx = C.xC (k0 • C.g) := by
    exact_mod_cast intFromBytes_of_bytesFromInt hrx
  have hpkv : intFromBytes pk = C.xC Peven := by
    exact_mod_cast intFromBytes_of_bytesFromInt hpk
  have hsn : s < C.n := hs ▸ Nat.mod_lt _ hax.n_pos
  have hRnz : k0 • C.g ≠ 0 := nsmul_ne_zero_of_lt_order hax.ord hk0 hk0n
  have hRv : s • C.g - e • Peven = k • C.g := by
    rw [hs, nsmul_mod_addOrderOf hax.ord, add_nsmul, mul_nsmul, smul_comm dN e C.g, ← hPe,
      add_sub_cancel_right]
  refine ⟨?_, h64⟩
  simp only [verifySchnorr, h64, htake, hdrop, hsbv, hpkv, hax.lift_even Peven hPnz hPev,
    ← he, hRv]
  have hns : ¬ C.n ≤ s := by omega
  cases hevR : C.evenY (k0 • C.g) with
  | false =>
    have hkk : k = C.n - k0 := by rw [hk, hevR]; simp
    have hkg : k • C.g = -(k0 • C.g) := by
      rw [hkk]; exact nsmul_sub_eq_neg hax.ord (le_of_lt hk0n)
    have h1 : k • C.g ≠ 0 := by rw [hkg]; simpa using hRnz
    have h2 : C.evenY (k • C.g) = true := by rw [hkg, hax.even_neg _ hRnz, hevR]; rfl
    have h3 : C.xC (k • C.g) = intFromBytes rx := by rw [hkg, hax.x_neg, hrxv]
    simp [h1, h2, h3, hns]
  | true =>
    have hkk : k = k0 := by rw [hk, hevR]; simp
    have h1 : k • C.g ≠ 0 := by rw [hkk]; exact hRnz
    have h2 : C.evenY (k • C.g) = true := by rw [hkk]; exact hevR
    have h3 : C.xC (k • C.g) = intFromBytes rx := by rw [hkk, hrxv]
    simp [h1, h2, h3, hns]
/-- C2.  For every event signed with a valid 32-byte secret key (one
whose scalar is nonzero mod n), the produced 64-byte signature rx||s is
a valid BIP-340 Schnorr signature over the message under the x-only
public key `get_public_key_bytes` derives: `verifySchnorr` accepts it.
The group interface abstracts secp256k1; `schnorrSign` negates the
secret scalar when the public point has odd Y and the nonce when R has
odd Y, exactly as worker.py lines 134-182 do. -/
theorem schnorr_sign_verifies {Pt : Type} [AddCommGroup Pt] [DecidableEq Pt]
    (C : SchnorrGroup Pt) (hax : SchnorrAx C) (secretKey msg pk sig : List ℕ)
    (hpk : getPublicKeyBytes C secretKey = some pk)
    (hsig : schnorrSign C secretKey msg = some sig) :
    verifySchnorr C pk msg sig = true ∧ sig.length = 64 := by
  rw [getPublicKeyBytes] at hpk
  unfold schnorrSign at hsig
  by_cases hP : (intFromBytes secretKey) • C.g = 0
  · rw [if_pos hP] at hsig; cases hsig
  rw [if_neg hP] at hsig
  rw [Option.bind_eq_some] at hsig
  obtain ⟨pkb, hpkb, hsig⟩ := hsig
  rw [Option.bind_eq_some] at hsig
  obtain ⟨t, htb, hsig⟩ := hsig
  by_cases hk0z : schnorrK0 C t pkb msg = 0
  · rw [if_pos hk0z] at hsig; cases hsig
  rw [if_neg hk0z] at hsig
  rw [Option.bind_eq_some] at hsig
  obtain ⟨rxb, hrxb, hsig⟩ := hsig
  rw [Option.map_eq_some'] at hsig
  obtain ⟨sbb, hsbb, hsig⟩ := hsig
  have hpp : pkb = pk := (Option.some.inj (hpk.symm.trans hpkb)).symm
  rw [← hpp, ← hsig]
  have hk0n : schnorrK0 C t pkb msg < C.n := by
    rw [schnorrK0]; exact Nat.mod_lt _ hax.n_pos
  cases hev : C.evenY (intFromBytes secretKey • C.g) with
  | true =>
    have hsd : schnorrSecret C secretKey = (intFromBytes secretKey : ℤ) := by
      rw [schnorrSecret, hev]; simp
    rw [hsd, zmod_natCast] at hsbb
    exact verify_core C hax (intFromBytes secretKey • C.g) (intFromBytes secretKey)
      msg pkb rxb sbb (schnorrK0 C t pkb msg) (schnorrE C rxb pkb msg)
      (schnorrK C (schnorrK0 C t pkb msg))
      ((schnorrK C (schnorrK0 C t pkb msg) +
        schnorrE C rxb pkb msg * intFromBytes secretKey) % C.n)
      rfl hP hev hk0z hk0n hpkb hrxb rfl rfl rfl hsbb
  | false =>
    have hsd : schnorrSecret C secretKey =
        (C.n : ℤ) - (intFromBytes secretKey : ℤ) := by
      rw [schnorrSecret, hev]; simp
    rw [hsd] at htb hsbb
    have hd0n : intFromBytes secretKey ≤ C.n := by
      have h0 := (bytesFromInt_some htb).1
      omega
    have hcast : (C.n : ℤ) - (intFromBytes secretKey : ℤ) =
        ((C.n - intFromBytes secretKey : ℕ) : ℤ) :=
      (Int.natCast_sub hd0n).symm
    rw [hcast, zmod_natCast] at hsbb
    have hneg : (C.n - intFromBytes secretKey) • C.g = -(intFromBytes secretKey • C.g) :=
      nsmul_sub_eq_neg hax.ord hd0n
    have hPnz : (C.n - intFromBytes secretKey) • C.g ≠ 0 := by
      rw [hneg]
      simpa using hP
    have hPev : C.evenY ((C.n - intFromBytes secretKey) • C.g) = true := by
      rw [hneg, hax.even_neg _ hP, hev]
      rfl
    have hpkc : bytesFromInt ((C.xC ((C.n - intFromBytes secretKey) • C.g) : ℤ)) = some pkb := by
      rw [hneg, hax.x_neg]
      exact hpkb
    exact verify_core C hax ((C.n - intFromBytes secretKey) • C.g)
      (C.n - intFromBytes secretKey)
      msg pkb rxb sbb (schnorrK0 C t pkb msg) (schnorrE C rxb pkb msg)
      (schnorrK C (schnorrK0 C t pkb msg))
      ((schnorrK C (schnorrK0 C t pkb msg) +
        schnorrE C rxb pkb msg * (C.n - intFromBytes secretKey)) % C.n)
      rfl hPnz hPev hk0z hk0n hpkc hrxb rfl rfl rfl hsbb
theorem toyCurve_ax : SchnorrAx toyCurve := by
  refine ⟨by decide, ?_, by decide, by decide, by decide⟩
  exact ZMod.addOrderOf_one 5
/-! ## C1: the event id is the SHA-256 of the canonical serialization -/

/-- C1.  For every event signed by `sign_event`, the `id` field equals the
lowercase-hex SHA-256 of `json.dumps([0, pubkey, created_at, kind, tags,
content], separators=(",", ":"), ensure_ascii=False)` — the JSON array with
no insignificant whitespace, minimal separators, fixed element order, and
Unicode preserved (`serializeEvent` is exactly that serialization, compare
its definition with worker.py lines 187-199) — and the event fields entering
the hash are the caller's, unchanged. -/
theorem sign_event_id_is_sha256_of_serialization {Pt : Type} [AddCommGroup Pt]
    [DecidableEq Pt] (C : SchnorrGroup Pt) (secretKey : List ℕ) (ev : EventCore)
    (out : SignedEvent) (h : signEvent C secretKey ev = some out) :
    out.id = bytesToHex (sha256 (utf8Encode (serializeEvent ev))) ∧
      out.id.data.all isLowerHexChar = true ∧ out.core = ev := by
  unfold signEvent at h
  rw [Option.map_eq_some'] at h
  obtain ⟨sig, _, h⟩ := h
  rw [← h]
  exact ⟨rfl, bytesToHex_lower _, rfl⟩

/-- Witness for C1 at a concrete event and key on the concrete group
instance: the signer returns an event and its id is the digest of the
serialization (all hypotheses discharged by evaluation). -/
theorem sign_event_id_is_sha256_of_serialization_witness :
    ((signEvent toyCurve (natToBytesBE 32 2)
        ⟨1, "ab12cd", 1704164645, [["t", "x"], ["imeta", "url u"]],
          "hello κόσμος"⟩).getD ⟨⟨0, "", 0, [], ""⟩, "", ""⟩).id =
      bytesToHex (sha256 (utf8Encode (serializeEvent
        ⟨1, "ab12cd", 1704164645, [["t", "x"], ["imeta", "url u"]],
          "hello κόσμος"⟩))) ∧
    ((signEvent toyCurve (natToBytesBE 32 2)
        ⟨1, "ab12cd", 1704164645, [["t", "x"], ["imeta", "url u"]],
          "hello κόσμος"⟩).getD ⟨⟨0, "", 0, [], ""⟩, "", ""⟩).id.data.all
        isLowerHexChar = true ∧
    ((signEvent toyCurve (natToBytesBE 32 2)
        ⟨1, "ab12cd", 1704164645, [["t", "x"], ["imeta", "url u"]],
          "hello κόσμος"⟩).getD ⟨⟨0, "", 0, [], ""⟩, "", ""⟩).core =
      ⟨1, "ab12cd", 1704164645, [["t", "x"], ["imeta", "url u"]], "hello κόσμος"⟩ :=
  sign_event_id_is_sha256_of_serialization toyCurve (natToBytesBE 32 2) _ _ (by rfl)

/-- Witness for C2 at a concrete secret key and message on the concrete
group instance (the `SchnorrAx` hypotheses are discharged by `decide` and
`ZMod.addOrderOf_one`; the signature is evaluated by the kernel). -/
theorem schnorr_sign_verifies_witness :
    verifySchnorr toyCurve ((getPublicKeyBytes toyCurve (natToBytesBE 32 2)).getD [])
        (natToBytesBE 32 7)
        ((schnorrSign toyCurve (natToBytesBE 32 2) (natToBytesBE 32 7)).getD []) = true ∧
      ((schnorrSign toyCurve (natToBytesBE 32 2) (natToBytesBE 32 7)).getD []).length = 64 :=
  schnorr_sign_verifies toyCurve toyCurve_ax (natToBytesBE 32 2) (natToBytesBE 32 7)
    ((getPublicKeyBytes toyCurve (natToBytesBE 32 2)).getD [])
    ((schnorrSign toyCurve (natToBytesBE 32 2) (natToBytesBE 32 7)).getD [])
    (by rfl) (by rfl)
/-! ## C10: `update_task_status` overwrite/frame semantics -/

/-- C10.  `update_task_status` overwrites `blossom_url`, `blossom_urls`,
`nostr_event_id`, `error` with the passed arguments (NULL when omitted) and
leaves `retry_count` unchanged unless `increment_retry`; consequently the
retry transition back to `'pending'` erases the persisted blossom URLs and
event id, and the `'complete'` write erases any stored error text. -/
theorem update_task_status_frame (row : TaskRow) (status : String)
    (bu : Option String) (bus : Option (List String)) (nid : Option String)
    (err : Option String) (inc : Bool) (e : String) (eid : String) :
    updateTaskStatus row status bu bus nid err inc =
      { id := row.id, status := status, media_items := row.media_items,
        blossom_url := bu, blossom_urls := bus, nostr_event_id := nid, error := err,
        retry_count := if inc then row.retry_count + 1 else row.retry_count } ∧
    (updateTaskStatus row "pending" none none none (some e) true).blossom_url = none ∧
    (updateTaskStatus row "pending" none none none (some e) true).blossom_urls = none ∧
    (updateTaskStatus row "pending" none none none (some e) true).nostr_event_id = none ∧
    (updateTaskStatus row "pending" none none none (some e) true).retry_count =
      row.retry_count + 1 ∧
    (updateTaskStatus row "complete" bu bus (some eid) none false).error = none ∧
    (updateTaskStatus row "complete" bu bus (some eid) none false).retry_count =
      row.retry_count ∧
    (updateTaskStatus row status bu bus nid err false).retry_count = row.retry_count := by
  refine ⟨?_, rfl, rfl, rfl, rfl, rfl, rfl, rfl⟩
  cases row
  rfl
/-! ## C3: the claim engine -/

theorem selectOldestPending_eq_none (rows : List QRow) :
    selectOldestPending rows = none ↔ ∀ r ∈ rows, r.status ≠ "pending" := by
  induction rows with
  | nil => simp [selectOldestPending]
  | cons a rest ih =>
      rw [selectOldestPending]
      cases hrec : selectOldestPending rest with
      | none =>
          show (if a.status = "pending" then some a else none) = none ↔ _
          by_cases ha : a.status = "pending"
          · rw [if_pos ha]
            simp [List.forall_mem_cons, ha]
          · rw [if_neg ha]
            simp only [List.forall_mem_cons, true_iff]
            exact ⟨ha, ih.mp hrec⟩
      | some b =>
          show (if a.status = "pending" ∧ a.created_at ≤ b.created_at then some a else some b) =
              none ↔ _
          have hb : ¬ ∀ r ∈ rest, r.status ≠ "pending" := by
            intro hall
            rw [← ih] at hall
            rw [hall] at hrec
            cases hrec
          constructor
          · intro hcontra
            split at hcontra <;> cases hcontra
          · intro hall
            exact absurd (fun r hr => hall r (List.mem_cons_of_mem a hr)) hb
theorem selectOldestPending_eq_some (rows : List QRow) (r : QRow)
    (h : selectOldestPending rows = some r) :
    r ∈ rows ∧ r.status = "pending" ∧
      ∀ r' ∈ rows, r'.status = "pending" → r.created_at ≤ r'.created_at := by
  induction rows generalizing r with
  | nil => cases h
  | cons a rest ih =>
      rw [selectOldestPending] at h
      cases hrec : selectOldestPending rest with
      | none =>
          rw [hrec] at h
          have h2 : (if a.status = "pending" then some a else none) = some r := h
          by_cases ha : a.status = "pending"
          · rw [if_pos ha] at h2
            injection h2 with h2
            rw [← h2]
            have hnone := (selectOldestPending_eq_none rest).mp hrec
            refine ⟨List.mem_cons_self a rest, ha, ?_⟩
            intro r' hr' hp'
            rcases List.mem_cons.mp hr' with heq | hmem
            · rw [heq]
            · exact absurd hp' (hnone r' hmem)
          · rw [if_neg ha] at h2
            cases h2
      | some b =>
          rw [hrec] at h
          have h2 : (if a.status = "pending" ∧ a.created_at ≤ b.created_at then some a
              else some b) = some r := h
          obtain ⟨hbmem, hbp, hbmin⟩ := ih b hrec
          by_cases ha : a.status = "pending" ∧ a.created_at ≤ b.created_at
          · rw [if_pos ha] at h2
            injection h2 with h2
            rw [← h2]
            refine ⟨List.mem_cons_self a rest, ha.1, ?_⟩
            intro r' hr' hp'
            rcases List.mem_cons.mp hr' with heq | hmem
            · rw [heq]
            · exact le_trans ha.2 (hbmin r' hmem hp')
          · rw [if_neg ha] at h2
            injection h2 with h2
            rw [← h2]
            refine ⟨List.mem_cons_of_mem a hbmem, hbp, ?_⟩
            intro r' hr' hp'
            rcases List.mem_cons.mp hr' with heq | hmem
            · subst heq
              by_cases hle : b.created_at ≤ r'.created_at
              · exact hle
              · have hra : r'.created_at ≤ b.created_at := by omega
                exact absurd ⟨hp', hra⟩ ha
            · exact hbmin r' hmem hp'
/-- Counterexample for C3 as stated.  `claim_next_pending_task` does NOT set
status `'processing'` and does NOT refresh `updated_at`: a pending task row
with `updated_at = 0` claimed at `now = 100` ends with status `'uploading'`
and `updated_at` still `0`; and `claim_next_pending_proposal` sets
`'processing'` but leaves `updated_at` untouched as well. -/
theorem claim_engine_counterexample :
    claimNextPendingTask [] [⟨"t1", "pending", 0, 0⟩] 100 =
      (some ⟨"t1", "pending", 0, 0⟩, [⟨"t1", "uploading", 0, 0⟩]) ∧
    (claimNextPendingTask [] [⟨"t1", "pending", 0, 0⟩] 100).2 ≠
      [⟨"t1", "processing", 0, 100⟩] ∧
    (claimNextPendingProposal [] [⟨"p1", "pending", 0, 0⟩] 100).2 =
      [⟨"p1", "processing", 0, 0⟩] ∧
    (⟨"p1", "processing", 0, 0⟩ : QRow).updated_at ≠ (100 : Int) := by
  refine ⟨by decide, by decide, by decide, by decide⟩
/-- C3 as amended.  For each work kind — video tasks claim to `'uploading'`
with `updated_at` untouched; proposals and gifts claim to `'processing'`
with `updated_at` untouched; migrations claim to `'processing'` AND refresh
`updated_at` to now — the claim function selects the first oldest pending
row and issues the conditional update guarded by
`WHERE id = ? AND status = 'pending'`; the update affects ≥ 1 row iff a
pending row with that id exists (ownership); on a lost race the select is
retried against the interfered table; and the function returns no row
exactly when no pending candidate exists. -/
theorem claim_engine_amended (claimed : String) (touch : Bool) (rows : List QRow)
    (now : Int) (i : ℕ) :
    claimNextPendingTask = claimLoop "uploading" false ∧
    claimNextPendingProposal = claimLoop "processing" false ∧
    claimNextPendingGift = claimLoop "processing" false ∧
    claimNextPendingMigration = claimLoop "processing" true ∧
    ((claimLoop claimed touch [] rows now).1 = none ↔ ∀ r ∈ rows, r.status ≠ "pending") ∧
    (∀ r, selectOldestPending rows = some r →
      r ∈ rows ∧ r.status = "pending" ∧
      (∀ r' ∈ rows, r'.status = "pending" → r.created_at ≤ r'.created_at) ∧
      claimLoop claimed touch [] rows now = (some r, (condClaim rows r.id claimed touch now).1)) ∧
    (∀ rid, 0 < (condClaim rows rid claimed touch now).2 ↔
      ∃ r ∈ rows, r.id = rid ∧ r.status = "pending") ∧
    (∀ rid, (condClaim rows rid claimed touch now).1[i]? = rows[i]?.map fun r =>
      if r.id = rid ∧ r.status = "pending" then
        { r with status := claimed, updated_at := if touch then now else r.updated_at }
      else r) ∧
    (∀ (env : List QRow → List QRow) (rest : List (List QRow → List QRow)) r,
      selectOldestPending rows = some r →
      (condClaim (env rows) r.id claimed touch now).2 = 0 →
      claimLoop claimed touch (env :: rest) rows now =
        claimLoop claimed touch rest (condClaim (env rows) r.id claimed touch now).1 now) := by
  refine ⟨rfl, rfl, rfl, rfl, ?_, ?_, ?_, ?_, ?_⟩
  · rw [claimLoop]
    cases hs : selectOldestPending rows with
    | none => exact iff_of_true rfl ((selectOldestPending_eq_none rows).mp hs)
    | some r =>
        obtain ⟨hmem, hp, -⟩ := selectOldestPending_eq_some rows r hs
        exact iff_of_false (fun hX => Option.noConfusion hX) fun hall => hall r hmem hp
  · intro r hs
    obtain ⟨hmem, hp, hmin⟩ := selectOldestPending_eq_some rows r hs
    refine ⟨hmem, hp, hmin, ?_⟩
    rw [claimLoop, hs]
  · intro rid
    simp [condClaim, List.length_pos, List.filter_eq_nil_iff]
  · intro rid
    exact List.getElem?_map _ _ _
  · intro env rest r hs h0
    rw [claimLoop, hs]
    simp [h0]
/-! ## C4: stale recovery -/

theorem guarded_map_getElem? {α : Type} (l : List α) (c : Prop) [Decidable c] (f : α → α)
    (hng : ¬c → ∀ p ∈ l, f p = p) (i : ℕ) :
    (if c then l.map f else l)[i]? = l[i]?.map f := by
  by_cases hc : c
  · rw [if_pos hc, List.getElem?_map]
  · rw [if_neg hc]
    cases h : l[i]? with
    | none => rfl
    | some p => simp [hng hc p (List.getElem?_mem h)]
/-- Counterexample for C4 as stated.  Proposal (and gift) stale recovery has
no `updated_at` threshold: a proposal still `'processing'` with
`updated_at = 1000` — which can be the current instant — is reset to
`'pending'`, and its `'uploading'` post with it.  (The reset functions do
not even read a clock.) -/
theorem stale_recovery_counterexample :
    (resetStaleProcessingProposals [⟨"p1", "processing", 1000⟩] [⟨1, "p1", "uploading"⟩]).2 =
      ([⟨"p1", "pending", 1000⟩], [⟨1, "p1", "pending"⟩]) ∧
    (resetStaleProcessingGifts [⟨"g1", "processing", 1000⟩] [⟨7, "g1", "uploading"⟩]).2 =
      ([⟨"g1", "pending", 1000⟩], [⟨7, "g1", "pending"⟩]) := by
  refine ⟨by decide, by decide⟩
/-- C4 as amended.  Migration stale recovery (30 min) and profile stale
recovery (10 min) are threshold-guarded and never reset a row whose
`updated_at` is younger than the threshold; migration recovery also resets
the stale parents' `'uploading'` posts and articles.  Proposal and gift
stale recovery reset EVERY `'processing'` row regardless of `updated_at`,
together with the `'uploading'` child posts of `'processing'` parents.
Each conjunct characterizes one result table row by row. -/
theorem stale_recovery_amended (props gifts migs : List PRow)
    (pposts gposts mposts marts : List CRow) (jobs : List JRow) (now : Int) (i : ℕ) :
    (resetStaleProcessingProposals props pposts).2.1[i]? = props[i]?.map (fun p =>
      if p.status = "processing" then { p with status := "pending" } else p) ∧
    (resetStaleProcessingProposals props pposts).2.2[i]? = pposts[i]?.map (fun c =>
      if c.status = "uploading" ∧
          c.parentId ∈ ((props.filter fun p => p.status = "processing").map (·.id)) then
        { c with status := "pending" } else c) ∧
    (resetStaleProcessingGifts gifts gposts).2.1[i]? = gifts[i]?.map (fun p =>
      if p.status = "processing" then { p with status := "pending" } else p) ∧
    (resetStaleProcessingGifts gifts gposts).2.2[i]? = gposts[i]?.map (fun c =>
      if c.status = "uploading" ∧
          c.parentId ∈ ((gifts.filter fun p => p.status = "processing").map (·.id)) then
        { c with status := "pending" } else c) ∧
    (resetStaleProcessingMigrations migs mposts marts now 30).2.1[i]? = migs[i]?.map (fun p =>
      if migStale now 30 p then { p with status := "pending" } else p) ∧
    (∀ p, migs[i]? = some p → ¬(p.updated_at < now - 30 * 60) →
      (resetStaleProcessingMigrations migs mposts marts now 30).2.1[i]? = some p) ∧
    (resetStaleProcessingMigrations migs mposts marts now 30).2.2.1[i]? = mposts[i]?.map (fun c =>
      if c.status = "uploading" ∧
          c.parentId ∈ ((migs.filter (migStale now 30)).map (·.id)) then
        { c with status := "pending" } else c) ∧
    (resetStaleProcessingMigrations migs mposts marts now 30).2.2.2[i]? = marts[i]?.map (fun c =>
      if c.status = "uploading" ∧
          c.parentId ∈ ((migs.filter (migStale now 30)).map (·.id)) then
        { c with status := "pending" } else c) ∧
    (resetStaleProcessingProfiles jobs now 10).2[i]? = jobs[i]?.map (fun j =>
      if j.profile_published = -1 ∧ j.updated_at < now - 10 * 60 then
        { j with profile_published := 0 } else j) ∧
    (∀ j, jobs[i]? = some j → ¬(j.updated_at < now - 10 * 60) →
      (resetStaleProcessingProfiles jobs now 10).2[i]? = some j) := by
  have hparent : ∀ (l : List PRow),
      (if 0 < (l.filter fun p => p.status = "processing").length then
        l.map (fun p => if p.status = "processing" then { p with status := "pending" } else p)
      else l)[i]? = l[i]?.map (fun p =>
        if p.status = "processing" then { p with status := "pending" } else p) := by
    intro l
    refine guarded_map_getElem? l _ _ (fun hng p hp => ?_) i
    have h0 : (l.filter fun p => p.status = "processing") = [] := by
      rcases Nat.eq_zero_or_pos (l.filter fun p => p.status = "processing").length with h | h
      · exact List.length_eq_zero.mp h
      · exact absurd h hng
    have := List.filter_eq_nil_iff.mp h0 p hp
    simp at this
    simp [this]
  have hchild : ∀ (l : List PRow) (cs : List CRow),
      (if 0 < (l.filter fun p => p.status = "processing").length then
        cs.map (fun c =>
          if c.status = "uploading" ∧
              c.parentId ∈ ((l.filter fun p => p.status = "processing").map (·.id)) then
            { c with status := "pending" } else c)
      else cs)[i]? = cs[i]?.map (fun c =>
        if c.status = "uploading" ∧
            c.parentId ∈ ((l.filter fun p => p.status = "processing").map (·.id)) then
          { c with status := "pending" } else c) := by
    intro l cs
    refine guarded_map_getElem? cs _ _ (fun hng c _ => ?_) i
    have h0 : (l.filter fun p => p.status = "processing") = [] := by
      rcases Nat.eq_zero_or_pos (l.filter fun p => p.status = "processing").length with h | h
      · exact List.length_eq_zero.mp h
      · exact absurd h hng
    rw [h0]
    simp
  have hparentM :
      (if 0 < (migs.filter (migStale now 30)).length then
        migs.map (fun p => if migStale now 30 p then { p with status := "pending" } else p)
      else migs)[i]? = migs[i]?.map (fun p =>
        if migStale now 30 p then { p with status := "pending" } else p) := by
    refine guarded_map_getElem? migs _ _ (fun hng p hp => ?_) i
    have h0 : migs.filter (migStale now 30) = [] := by
      rcases Nat.eq_zero_or_pos (migs.filter (migStale now 30)).length with h | h
      · exact List.length_eq_zero.mp h
      · exact absurd h hng
    have := List.filter_eq_nil_iff.mp h0 p hp
    simp [this]
  have hchildM : ∀ (cs : List CRow),
      (if 0 < (migs.filter (migStale now 30)).length then
        cs.map (fun c =>
          if c.status = "uploading" ∧
              c.parentId ∈ ((migs.filter (migStale now 30)).map (·.id)) then
            { c with status := "pending" } else c)
      else cs)[i]? = cs[i]?.map (fun c =>
        if c.status = "uploading" ∧
            c.parentId ∈ ((migs.filter (migStale now 30)).map (·.id)) then
          { c with status := "pending" } else c) := by
    intro cs
    refine guarded_map_getElem? cs _ _ (fun hng c _ => ?_) i
    have h0 : migs.filter (migStale now 30) = [] := by
      rcases Nat.eq_zero_or_pos (migs.filter (migStale now 30)).length with h | h
      · exact List.length_eq_zero.mp h
      · exact absurd h hng
    rw [h0]
    simp
  refine ⟨hparent props, hchild props pposts, hparent gifts, hchild gifts gposts,
    hparentM, ?_, hchildM mposts, hchildM marts, ?_, ?_⟩
  · intro p hp hyoung
    rw [show (resetStaleProcessingMigrations migs mposts marts now 30).2.1 =
        (if 0 < (migs.filter (migStale now 30)).length then
          migs.map (fun p => if migStale now 30 p then { p with status := "pending" } else p)
        else migs) from rfl, hparentM, hp]
    have hms : migStale now 30 p = false := by
      unfold migStale
      simp only [Bool.and_eq_false_iff, decide_eq_false_iff_not]
      right
      omega
    simp [hms]
  · exact List.getElem?_map _ _ _
  · intro j hj hyoung
    rw [show (resetStaleProcessingProfiles jobs now 10).2 = jobs.map (fun j =>
        if j.profile_published = -1 ∧ j.updated_at < now - 10 * 60 then
          { j with profile_published := 0 } else j) from rfl, List.getElem?_map, hj]
    simp only [Option.map_some']
    rw [if_neg (fun hcon => hyoung hcon.2)]
/-! ## C5: blossom_urls vs media_items on terminal Posts -/

theorem gatherAll_some_length (uploads : List (Option String)) (urls : List String)
    (h : gatherAll uploads = some urls) : urls.length = uploads.length := by
  induction uploads generalizing urls with
  | nil =>
      rw [gatherAll] at h
      injection h with h
      rw [← h]
      rfl
  | cons o rest ih =>
      cases o with
      | none => cases h
      | some u =>
          rw [gatherAll] at h
          cases hr : gatherAll rest with
          | none => rw [hr] at h; cases h
          | some us =>
              rw [hr] at h
              injection h with h
              rw [← h]
              simp [ih us hr]
/-- Counterexample for C5 as stated.  A Post with exactly one media item that
completes successfully persists `blossom_urls = NULL`
(`json.dumps(...) if len(all_blossom_urls) > 1 else None`), so in the
terminal state `'complete'` there is no stored list whose length could equal
`len(media_items) = 1`; the single URL lives in `blossom_url` instead. -/
theorem post_blossom_urls_counterexample :
    (processTaskFinal ⟨"t1", "pending", ["u1"], none, none, none, none, 0⟩
      [some "https://b/h1"] true "eid").status = "complete" ∧
    (processTaskFinal ⟨"t1", "pending", ["u1"], none, none, none, none, 0⟩
      [some "https://b/h1"] true "eid").blossom_urls = none ∧
    (processTaskFinal ⟨"t1", "pending", ["u1"], none, none, none, none, 0⟩
      [some "https://b/h1"] true "eid").blossom_url = some "https://b/h1" ∧
    (["u1"] : List String).length = 1 := by
  refine ⟨by decide, by decide, by decide, by decide⟩
/-- C5 as amended.  For Posts with at least two media items the invariant
holds as an iff: the final row is `'complete'` exactly when it stores a
decoded `blossom_urls` list of the same length as `media_items`.  Terminal
failure rows (`'error'`, and the retry state `'pending'`) store NULL in
`blossom_urls` and `nostr_event_id`.  A single-media Post stores NULL in
`blossom_urls` even on completion, keeping the one URL in `blossom_url`. -/
theorem post_blossom_urls_amended (row : TaskRow) (uploads : List (Option String))
    (publishOk : Bool) (eventId : String) (fin : TaskRow)
    (hlen : uploads.length = row.media_items.length)
    (hfin : fin = processTaskFinal row uploads publishOk eventId) :
    (2 ≤ row.media_items.length →
      (fin.status = "complete" ↔
        ∃ l, fin.blossom_urls = some l ∧ l.length = row.media_items.length)) ∧
    (fin.status = "error" ∨ fin.status = "pending" →
      fin.blossom_urls = none ∧ fin.nostr_event_id = none) ∧
    (row.media_items.length = 1 → fin.blossom_urls = none ∧
      (fin.status = "complete" → ∃ u, fin.blossom_url = some u)) := by
  rw [hfin]
  cases hg : gatherAll uploads with
  | none =>
      simp only [processTaskFinal, hg, taskFailPath]
      by_cases hr : (updateTaskStatus row "uploading" none none none none false).retry_count <
          MAX_RETRIES
      · rw [if_pos hr]
        simp [updateTaskStatus]
      · rw [if_neg hr]
        simp [updateTaskStatus]
  | some urls =>
      have hul : urls.length = row.media_items.length := by
        rw [gatherAll_some_length uploads urls hg, hlen]
      cases publishOk with
      | true =>
          simp only [processTaskFinal, hg, taskFailPath, if_true]
          refine ⟨fun h2 => ?_, fun habs => ?_, fun h1 => ?_⟩
          · constructor
            · intro _
              refine ⟨urls, ?_, hul⟩
              have hgt : 1 < urls.length := by omega
              simp [updateTaskStatus, hgt]
            · intro _
              rfl
          · rcases habs with h | h <;> simp [updateTaskStatus] at h
          · have hngt : ¬ 1 < urls.length := by omega
            refine ⟨by simp [updateTaskStatus, hngt], fun _ => ?_⟩
            have h1e : ∃ u, urls = [u] := List.length_eq_one.mp (by omega)
            obtain ⟨u, rfl⟩ := h1e
            exact ⟨u, by simp [updateTaskStatus]⟩
      | false =>
          simp only [processTaskFinal, hg, taskFailPath, Bool.false_eq_true, if_false]
          by_cases hr : (updateTaskStatus
              (updateTaskStatus row "uploading" none none none none false) "publishing"
              urls.head? (if 1 < urls.length then some urls else none) none none
              false).retry_count < MAX_RETRIES
          · rw [if_pos hr]
            simp [updateTaskStatus]
          · rw [if_neg hr]
            simp [updateTaskStatus]
/-! ## C6: migration completion -/

theorem filter_terminal_length (l : List String)
    (hterm : ∀ s ∈ l, s = "complete" ∨ s = "error") :
    (l.filter (· = "complete")).length + (l.filter (· = "error")).length = l.length := by
  induction l with
  | nil => rfl
  | cons a rest ih =>
      have ha := hterm a (List.mem_cons_self a rest)
      have ih' := ih fun s hs => hterm s (List.mem_cons_of_mem a hs)
      rcases ha with ha | ha <;> subst ha <;> simp [List.filter_cons] <;> omega
/-- Counterexample for C6 as stated.  When every child task failed,
`update_job_status` marks the Migration `'error'`, not `'complete'`
(`"complete" if row["completed"] > 0 else "error"`); the secret key is still
scrubbed. -/
theorem job_all_errors_counterexample :
    updateJobStatus ["error", "error"] ⟨"j1", "processing", "sk", 0⟩ 50 =
      some ⟨"j1", "error", "DELETED", 50⟩ ∧
    ("error" : String) ≠ "complete" := by
  refine ⟨by decide, by decide⟩
theorem all_of_filter_length (l : List String) (p : String → Bool)
    (h : l.length = (l.filter p).length) : ∀ a ∈ l, p a := by
  induction l with
  | nil =>
      intro a ha
      cases ha
  | cons b rest ih =>
      rw [List.filter_cons] at h
      by_cases hb : p b
      · rw [if_pos hb] at h
        simp only [List.length_cons] at h
        intro a ha
        rcases List.mem_cons.mp ha with heq | hmem
        · rw [heq]
          exact hb
        · exact ih (by omega) a hmem
      · rw [if_neg hb] at h
        exfalso
        have hle := List.length_filter_le p rest
        simp only [List.length_cons] at h
        omega
theorem updateJobStatus_eq (children : List String) (job : JobRow) (now : Int)
    (hne : children ≠ []) :
    updateJobStatus children job now = some (
      let newStatus :=
        if children.length = (children.filter (· = "complete")).length then "complete"
        else if children.length = (children.filter (· = "complete")).length +
            (children.filter (· = "error")).length then
          (if 0 < (children.filter (· = "complete")).length then "complete" else "error")
        else "processing"
      if newStatus = "complete" ∨ newStatus = "error" then
        { job with status := newStatus, secret_key_hex := "DELETED", updated_at := now }
      else { job with status := newStatus, updated_at := now }) := by
  rw [updateJobStatus, if_neg hne]
/-- C6 as amended.  When every child task of a Migration is terminal, the
Migration is marked `'complete'` if at least one child completed, and
`'error'` when all children failed; the secret key is replaced with the
`'DELETED'` sentinel at either terminal transition (`update_job_status`
touches only the `jobs` row, so the children's `'error'` states stay
intact).  A Migration with no child tasks crashes the updater
(`None + None` from SQLite NULL sums) before any write, modelled as
`none`. -/
theorem update_job_status_amended (children : List String) (job : JobRow) (now : Int)
    (hne : children ≠ []) (hterm : ∀ s ∈ children, s = "complete" ∨ s = "error") :
    updateJobStatus [] job now = none ∧
    ∃ j', updateJobStatus children job now = some j' ∧
      j'.secret_key_hex = "DELETED" ∧ j'.updated_at = now ∧ j'.id = job.id ∧
      (j'.status = "complete" ∨ j'.status = "error") ∧
      ((∃ s ∈ children, s = "complete") → j'.status = "complete") ∧
      ((∀ s ∈ children, s = "error") → j'.status = "error") := by
  refine ⟨rfl, ?_⟩
  have hsum := filter_terminal_length children hterm
  have hcpos : 0 < (children.filter (· = "complete")).length ↔
      ∃ s ∈ children, s = "complete" := by
    simp [List.length_pos, List.filter_eq_nil_iff]
  by_cases h1 : children.length = (children.filter (· = "complete")).length
  · refine ⟨{ job with status := "complete", secret_key_hex := "DELETED", updated_at := now },
      ?_, rfl, rfl, rfl, Or.inl rfl, fun _ => rfl, fun hall => ?_⟩
    · rw [updateJobStatus_eq children job now hne]
      simp [h1]
    · exfalso
      obtain ⟨a, ha⟩ := List.exists_mem_of_ne_nil children hne
      have hac : a = "complete" := by
        have := all_of_filter_length children (· = "complete") h1 a ha
        simpa using this
      have hae := hall a ha
      rw [hac] at hae
      exact absurd hae (by decide)
  · have h2 : children.length = (children.filter (· = "complete")).length +
        (children.filter (· = "error")).length := hsum.symm
    by_cases hc : 0 < (children.filter (· = "complete")).length
    · refine ⟨{ job with status := "complete", secret_key_hex := "DELETED", updated_at := now },
        ?_, rfl, rfl, rfl, Or.inl rfl, fun _ => rfl, fun hall => ?_⟩
      · rw [updateJobStatus_eq children job now hne]
        simp only []
        rw [if_neg h1, if_pos h2, if_pos hc]
        simp
      · exfalso
        obtain ⟨s, hs, hsc⟩ := hcpos.mp hc
        have := hall s hs
        rw [hsc] at this
        exact absurd this (by decide)
    · refine ⟨{ job with status := "error", secret_key_hex := "DELETED", updated_at := now },
        ?_, rfl, rfl, rfl, Or.inr rfl, fun hex => absurd (hcpos.mpr hex) hc, fun _ => rfl⟩
      rw [updateJobStatus_eq children job now hne]
      simp only []
      rw [if_neg h1, if_pos h2, if_neg hc]
      simp
/-! ## C9: markdown image extraction and rewriting -/

theorem scanAlt_decomp (l : List Char) (alt url rest : List Char)
    (h : scanAlt l = some (alt, url, rest)) :
    l = alt ++ ']' :: '(' :: (url ++ rest) ∧ url ≠ [] := by
  induction l generalizing alt url rest with
  | nil => cases h
  | cons c cs ih =>
      rw [scanAlt] at h
      by_cases h1 : c = ']' ∧ cs.head? = some '(' ∧ cs.tail.takeWhile urlChar ≠ []
      · rw [if_pos h1] at h
        injection h with h
        simp only [Prod.mk.injEq] at h
        obtain ⟨rfl, rfl, rfl⟩ := h
        obtain ⟨hc, hh, hne⟩ := h1
        have hcs : cs = '(' :: cs.tail := by
          cases cs with
          | nil => cases hh
          | cons x xs =>
              injection hh with hh
              rw [hh]
              rfl
        refine ⟨?_, hne⟩
        rw [hc]
        conv_lhs => rw [hcs]
        rw [List.takeWhile_append_dropWhile]
        rfl
      · rw [if_neg h1] at h
        by_cases h2 : c = '\n'
        · rw [if_pos h2] at h
          cases h
        · rw [if_neg h2] at h
          rw [Option.map_eq_some'] at h
          obtain ⟨⟨a2, u2, r2⟩, hrec, heq⟩ := h
          simp only [Prod.mk.injEq] at heq
          obtain ⟨rfl, rfl, rfl⟩ := heq
          obtain ⟨hdec, hne⟩ := ih a2 u2 r2 hrec
          refine ⟨?_, hne⟩
          simp only [List.cons_append]
          exact congrArg (c :: ·) hdec
theorem scanMdAux_flatten (fuel : ℕ) (md : List Char) (hf : md.length ≤ fuel) :
    ((scanMdAux fuel md).map segChars).flatten = md := by
  induction fuel generalizing md with
  | zero =>
      have : md = [] := List.length_eq_zero.mp (Nat.le_zero.mp hf)
      rw [this]
      rfl
  | succ fuel ih =>
      cases md with
      | nil => rfl
      | cons c rest =>
          rw [scanMdAux]
          by_cases h1 : c = '!' ∧ rest.head? = some '['
          · rw [if_pos h1]
            cases hs : scanAlt rest.tail with
            | some r =>
                obtain ⟨alt, url, rest'⟩ := r
                obtain ⟨hdec, hne⟩ := scanAlt_decomp rest.tail alt url rest' hs
                have hrest : rest = '[' :: rest.tail := by
                  cases rest with
                  | nil => cases h1.2
                  | cons x xs =>
                      injection h1.2 with hx
                      rw [hx]
                      rfl
                have hlen : rest'.length ≤ fuel := by
                  have hlen2 : rest.tail.length =
                      alt.length + 1 + 1 + (url.length + rest'.length) := by
                    rw [hdec]
                    simp [List.length_append]
                    omega
                  have hlen3 : rest.length = rest.tail.length + 1 := by
                    rw [hrest]
                    rfl
                  simp only [List.length_cons] at hf
                  omega
                simp only [List.map_cons, List.flatten_cons, ih rest' hlen, segChars]
                rw [h1.1]
                conv_rhs => rw [hrest, hdec]
                simp
            | none =>
                simp only [List.map_cons, List.flatten_cons, segChars]
                have : rest.length ≤ fuel := by
                  simp only [List.length_cons] at hf
                  omega
                rw [ih rest this]
                rfl
          · rw [if_neg h1]
            simp only [List.map_cons, List.flatten_cons, segChars]
            have : rest.length ≤ fuel := by
              simp only [List.length_cons] at hf
              omega
            rw [ih rest this]
            rfl
theorem scanMd_flatten (md : List Char) : ((scanMd md).map segChars).flatten = md :=
  scanMdAux_flatten md.length md le_rfl
theorem mk_data_eq (s : String) : String.mk s.data = s := rfl
theorem replace_untouched (md : String) (m : List (String × String))
    (h : ∀ u ∈ extractMarkdownImages md, lookupUrl m u = none) :
    replaceMarkdownImages md m = md := by
  unfold replaceMarkdownImages
  have hcong : (scanMd md.toList).map (replaceSeg m) = (scanMd md.toList).map segChars := by
    apply List.map_congr_left
    intro s hs
    cases s with
    | lit c => rfl
    | img alt url =>
        have hu : String.mk url ∈ extractMarkdownImages md := by
          unfold extractMarkdownImages
          exact List.mem_filterMap.mpr ⟨.img alt url, hs, rfl⟩
        simp [replaceSeg, h _ hu]
  rw [hcong, scanMd_flatten]
  cases md
  rfl
/-- Counterexample for C9 as stated.  The rewrite is not idempotent for a
map that chains values into keys: `![](a)` with the constant map
`{a ↦ b, b ↦ c}` rewrites to `![](b)` once and to `![](c)` twice. -/
theorem markdown_rewrite_counterexample :
    replaceMarkdownImages "![](a)" [("a", "b"), ("b", "c")] = "![](b)" ∧
    replaceMarkdownImages (replaceMarkdownImages "![](a)" [("a", "b"), ("b", "c")])
      [("a", "b"), ("b", "c")] = "![](c)" ∧
    ("![](c)" : String) ≠ "![](b)" := by
  refine ⟨by decide, by decide, by decide⟩
/-- C9 as amended.  The rewrite touches only the regex matches: literal text
outside `![...](url` spans is emitted verbatim, a match whose URL is not a
key of the map is emitted verbatim, and a document none of whose extracted
URLs is a key is returned unchanged.  Applying the rewrite twice equals
applying it once as soon as no URL extracted from the once-rewritten
document is still a key of the map (which the chained-map counterexample
violates); full idempotence for every map does not hold. -/
theorem markdown_rewrite_amended (md : String) (m : List (String × String)) :
    ((∀ u ∈ extractMarkdownImages md, lookupUrl m u = none) →
      replaceMarkdownImages md m = md) ∧
    ((∀ u ∈ extractMarkdownImages (replaceMarkdownImages md m), lookupUrl m u = none) →
      replaceMarkdownImages (replaceMarkdownImages md m) m = replaceMarkdownImages md m) ∧
    (replaceMarkdownImages md m =
      String.mk ((scanMd md.toList).map (replaceSeg m)).flatten) ∧
    (∀ c, replaceSeg m (.lit c) = [c]) ∧
    (∀ alt url, lookupUrl m (String.mk url) = none →
      replaceSeg m (.img alt url) = segChars (.img alt url)) ∧
    (String.mk ((scanMd md.toList).map segChars).flatten = md) ∧
    (extractMarkdownImages md = (scanMd md.toList).filterMap fun s =>
      match s with
      | .img _ url => some (String.mk url)
      | .lit _ => none) := by
  refine ⟨replace_untouched md m, replace_untouched (replaceMarkdownImages md m) m,
    rfl, fun c => rfl, fun alt url hu => ?_, ?_, rfl⟩
  · simp [replaceSeg, hu]
  · rw [scanMd_flatten]
    cases md
    rfl
/-- Witness for C9's amended theorem: a concrete document and map where the
no-key-extracted-after-one-pass hypothesis holds, so a second pass is the
identity. -/
theorem markdown_rewrite_amended_witness :
    replaceMarkdownImages
        (replaceMarkdownImages "intro ![pic](https://cdn/a.png) outro"
          [("https://cdn/a.png", "https://blossom.primal.net/h1")])
        [("https://cdn/a.png", "https://blossom.primal.net/h1")] =
      replaceMarkdownImages "intro ![pic](https://cdn/a.png) outro"
        [("https://cdn/a.png", "https://blossom.primal.net/h1")] :=
  (markdown_rewrite_amended "intro ![pic](https://cdn/a.png) outro"
    [("https://cdn/a.png", "https://blossom.primal.net/h1")]).2.1 (by decide)
/-! ## C7: gift-article attempt counter and CDN fallback -/

theorem inlineStep_foldl (uploadRes : String → Option String) (urls : List String) :
    ∀ acc : List (String × String) × Bool,
      (urls.foldl (inlineStep uploadRes) acc).1 =
        acc.1 ++ urls.filterMap (fun u =>
          if skipInlineUrl u then none else (uploadRes u).map fun b => (u, b)) ∧
      (urls.foldl (inlineStep uploadRes) acc).2 =
        (acc.2 || urls.any fun u => !skipInlineUrl u && (uploadRes u).isNone) := by
  induction urls with
  | nil =>
      intro acc
      simp
  | cons u rest ih =>
      intro acc
      rw [List.foldl_cons, List.filterMap_cons, List.any_cons]
      by_cases hskip : skipInlineUrl u
      · have hstep : inlineStep uploadRes acc u = acc := by
          unfold inlineStep
          rw [if_pos hskip]
        rw [hstep]
        obtain ⟨ih1, ih2⟩ := ih acc
        rw [ih1, ih2]
        simp [hskip]
      · cases hu : uploadRes u with
        | some b =>
            have hstep : inlineStep uploadRes acc u = (acc.1 ++ [(u, b)], acc.2) := by
              unfold inlineStep
              rw [if_neg hskip, hu]
            rw [hstep]
            obtain ⟨ih1, ih2⟩ := ih (acc.1 ++ [(u, b)], acc.2)
            rw [ih1, ih2]
            simp [hskip, hu]
        | none =>
            have hstep : inlineStep uploadRes acc u = (acc.1, true) := by
              unfold inlineStep
              rw [if_neg hskip, hu]
            rw [hstep]
            obtain ⟨ih1, ih2⟩ := ih (acc.1, true)
            rw [ih1, ih2]
            simp [hskip, hu]
/-- C7.  For every gift Article processed, `upload_attempts` is incremented
at the start of the attempt; when some image upload failed and the new
counter is below `MAX_UPLOAD_ATTEMPTS = 5`, only the counter is persisted —
the article keeps its status and content and the parent gift returns to
`'pending'` for a later retry; on the 5th (or later) attempt with
still-failing images the article is marked `'ready'` with the rewrite
applied only for the successfully uploaded URLs, the failed ones keeping
their original CDN URLs; the url map contains exactly the non-skipped
extracted URLs whose upload succeeded; and the parent gift goes back to
`'pending'` exactly when some article failed below the cap. -/
theorem gift_article_retry_behavior (uploadRes : String → Option String)
    (a : GiftArticle) (articles : List GiftArticle) :
    (scanGiftArticle uploadRes a).attempts = a.upload_attempts + 1 ∧
    ((scanGiftArticle uploadRes a).failed = true →
      (scanGiftArticle uploadRes a).attempts < MAX_UPLOAD_ATTEMPTS →
      processGiftArticle uploadRes a =
        ({ a with upload_attempts := a.upload_attempts + 1 }, false)) ∧
    ((scanGiftArticle uploadRes a).failed = true →
      MAX_UPLOAD_ATTEMPTS ≤ (scanGiftArticle uploadRes a).attempts →
      (processGiftArticle uploadRes a).1.status = "ready" ∧
      (processGiftArticle uploadRes a).1.upload_attempts = a.upload_attempts + 1 ∧
      (processGiftArticle uploadRes a).1.content_markdown =
        (if (scanGiftArticle uploadRes a).mapping ≠ [] then
          replaceMarkdownImages a.content_markdown (scanGiftArticle uploadRes a).mapping
        else a.content_markdown)) ∧
    ((scanGiftArticle uploadRes a).mapping =
      (extractMarkdownImages a.content_markdown).filterMap (fun u =>
        if skipInlineUrl u then none else (uploadRes u).map fun b => (u, b))) ∧
    (∀ u, u ∈ extractMarkdownImages a.content_markdown →
      uploadRes u = none → ∀ b, (u, b) ∉ (scanGiftArticle uploadRes a).mapping) ∧
    ((scanGiftArticle uploadRes a).failed = false →
      (processGiftArticle uploadRes a).1.status = "ready" ∧
      (processGiftArticle uploadRes a).2 = true) ∧
    (processGiftStatusAfterArticles uploadRes articles = "pending" ↔
      ∃ a' ∈ articles, (processGiftArticle uploadRes a').2 = false) := by
  have hmap : (scanGiftArticle uploadRes a).mapping =
      (extractMarkdownImages a.content_markdown).filterMap (fun u =>
        if skipInlineUrl u then none else (uploadRes u).map fun b => (u, b)) := by
    unfold scanGiftArticle
    exact ((inlineStep_foldl uploadRes (extractMarkdownImages a.content_markdown)) _).1
  refine ⟨rfl, ?_, ?_, hmap, ?_, ?_, ?_⟩
  · intro hfail hlt
    simp only [processGiftArticle, hfail, if_true]
    rw [if_neg (by omega)]
    rfl
  · intro hfail hge
    simp only [processGiftArticle, hfail, if_true]
    rw [if_pos hge]
    exact ⟨rfl, rfl, rfl⟩
  · intro u hu hnone b hmem
    rw [hmap] at hmem
    obtain ⟨u', hu', hx⟩ := List.mem_filterMap.mp hmem
    by_cases h : skipInlineUrl u'
    · rw [if_pos h] at hx
      exact Option.noConfusion hx
    · rw [if_neg h] at hx
      obtain ⟨b', hb', heq⟩ := Option.map_eq_some'.mp hx
      simp only [Prod.mk.injEq] at heq
      obtain ⟨h1, h2⟩ := heq
      rw [h1, hnone] at hb'
      exact Option.noConfusion hb'
  · intro hok
    simp only [processGiftArticle, hok, Bool.false_eq_true, if_false]
    constructor <;> trivial
  · unfold processGiftStatusAfterArticles processGiftArticles
    by_cases hall : articles.all (fun a' => (processGiftArticle uploadRes a').2) = true
    · rw [if_pos hall]
      constructor
      · intro h
        exact absurd h (by decide)
      · rintro ⟨a', ha', hfa⟩
        have := List.all_eq_true.mp hall a' ha'
        rw [hfa] at this
        exact absurd this (by decide)
    · rw [if_neg hall]
      constructor
      · intro _
        simp only [List.all_eq_true, not_forall, Bool.not_eq_true] at hall
        obtain ⟨a', ha', hfa⟩ := hall
        exact ⟨a', ha', hfa⟩
      · intro _
        rfl
theorem gift_article_retry_behavior_witness :
    processGiftArticle (fun _ => none) giftArticleW =
      ({ giftArticleW with upload_attempts := 1 }, false) :=
  (gift_article_retry_behavior (fun _ => none) giftArticleW []).2.1
    (by decide) (by decide)
/-- C8 counterexample.  Three behaviours of `upload_media_to_blossom`
contradict the claim: a video upload answered with HTTP 201 raises an
upload failure (the video path accepts only 200); an image response whose
`url` field is present but empty falls back to `<server>/<hash>` instead of
using the field; and a successful video upload sends no `X-SHA-256` header
at all (the backend `/stream-upload` POST has no such header). -/
theorem upload_media_counterexample :
    uploadMediaToBlossom envVid201 [] "video" = Except.error "Upload failed: bad" ∧
    uploadMediaToBlossom envImgEmptyUrl [] "image" =
      Except.ok ⟨BLOSSOM_SERVER ++ "/" ++ emptyHashHex, emptyHashHex, 0, "image/png",
        some emptyHashHex⟩ ∧
    uploadMediaToBlossom envVidOk [] "video" =
      Except.ok ⟨"https://backend/b", emptyHashHex, 0, "video/mp4", none⟩ := by
  refine ⟨rfl, ?_, ?_⟩ <;> rfl
/-- C8 amended.  For every upload: on the image path (a direct Blossom PUT)
a success returns hash = SHA-256 of the uploaded bytes, sends that hash as
the `X-SHA-256` header, and the url is the server's `url` field when that
field is present and non-empty, else `<server>/<hash>`; the image path
fails exactly when the status is outside {200, 201}.  On the video path (a
backend `/stream-upload` POST) a success returns the backend's
`blossom_url` with the same hash but no `X-SHA-256` header, and it fails
exactly when the status differs from 200 — HTTP 201 also fails there. -/
theorem upload_media_amended (env : BlossomEnv) (bytes : List ℕ) (mt : String) :
    (∀ r, uploadMediaToBlossom env bytes mt = Except.ok r → mt ≠ "video" →
      r.hash = bytesToHex (sha256 bytes) ∧ r.sentXSha256 = some r.hash ∧
      ((∃ u, env.imgUrlField = some u ∧ u ≠ "" ∧ r.url = u) ∨
        r.url = BLOSSOM_SERVER ++ "/" ++ r.hash)) ∧
    (mt ≠ "video" →
      ((env.imgStatus ≠ 200 ∧ env.imgStatus ≠ 201) ↔
        uploadMediaToBlossom env bytes mt =
          Except.error ("Upload failed: " ++ env.imgRespText))) ∧
    (∀ r, uploadMediaToBlossom env bytes "video" = Except.ok r →
      r.url = env.vidBlossomUrl ∧ r.hash = bytesToHex (sha256 bytes) ∧
      r.sentXSha256 = none) ∧
    (env.vidStatus ≠ 200 ↔
      uploadMediaToBlossom env bytes "video" =
        Except.error ("Upload failed: " ++ env.vidRespText)) := by
  refine ⟨?_, ?_, ?_, ?_⟩
  · intro r hr hmt
    simp only [uploadMediaToBlossom] at hr
    rw [if_neg hmt] at hr
    by_cases hst : env.imgStatus ≠ 200 ∧ env.imgStatus ≠ 201
    · rw [if_pos hst] at hr
      exact Except.noConfusion hr
    · rw [if_neg hst] at hr
      injection hr with h
      subst h
      refine ⟨rfl, rfl, ?_⟩
      cases hf : env.imgUrlField with
      | none =>
          right
          simp only [hf]
      | some u =>
          by_cases hu : u = ""
          · right
            simp only [hf, if_pos hu]
          · left
            exact ⟨u, rfl, hu, by simp only [hf, if_neg hu]⟩
  · intro hmt
    constructor
    · intro hst
      simp only [uploadMediaToBlossom]
      rw [if_neg hmt, if_pos hst]
    · intro herr
      by_contra hst
      simp only [uploadMediaToBlossom] at herr
      rw [if_neg hmt, if_neg hst] at herr
      exact Except.noConfusion herr
  · intro r hr
    simp only [uploadMediaToBlossom] at hr
    rw [if_pos trivial] at hr
    by_cases hv : env.vidStatus ≠ 200
    · rw [if_pos hv] at hr
      exact Except.noConfusion hr
    · rw [if_neg hv] at hr
      injection hr with h
      subst h
      exact ⟨rfl, rfl, rfl⟩
  · constructor
    · intro hv
      simp only [uploadMediaToBlossom]
      rw [if_pos trivial, if_pos hv]
    · intro herr
      by_contra hv
      simp only [uploadMediaToBlossom] at herr
      rw [if_pos trivial, if_neg (not_not_intro hv)] at herr
      exact Except.noConfusion herr
theorem upload_media_amended_witness :
    uploadMediaToBlossom envImgW [] "image" = Except.ok resImgW ∧
    (resImgW.hash = bytesToHex (sha256 []) ∧
      resImgW.sentXSha256 = some resImgW.hash ∧
      ((∃ u, envImgW.imgUrlField = some u ∧ u ≠ "" ∧ resImgW.url = u) ∨
        resImgW.url = BLOSSOM_SERVER ++ "/" ++ resImgW.hash)) :=
  ⟨rfl, (upload_media_amended envImgW [] "image").1 resImgW rfl (by decide)⟩
theorem claim_engine_amended_witness :
    claimLoop "uploading" false [] qRowsW 100 =
      (some qRowW, (condClaim qRowsW qRowW.id "uploading" false 100).1) :=
  ((claim_engine_amended "uploading" false qRowsW 100 0).2.2.2.2.2.1
    qRowW (by decide)).2.2.2
theorem stale_recovery_amended_witness :
    (resetStaleProcessingMigrations migsW [] [] 100 30).2.1[0]? = some migRowW :=
  (stale_recovery_amended [] [] migsW [] [] [] [] [] 100 0).2.2.2.2.2.1
    migRowW (by decide) (by decide)
theorem post_blossom_urls_amended_witness :
    finRowW.status = "complete" ↔
      ∃ l, finRowW.blossom_urls = some l ∧ l.length = taskRowW.media_items.length :=
  (post_blossom_urls_amended taskRowW [some "a", some "b"] true "eid" finRowW
    (by decide) rfl).1 (by decide)
theorem update_job_status_amended_witness :
    updateJobStatus [] jobRowW 50 = none ∧
    ∃ j', updateJobStatus ["complete", "error"] jobRowW 50 = some j' ∧
      j'.secret_key_hex = "DELETED" ∧ j'.updated_at = 50 ∧ j'.id = jobRowW.id ∧
      (j'.status = "complete" ∨ j'.status = "error") ∧
      ((∃ s ∈ ["complete", "error"], s = "complete") → j'.status = "complete") ∧
      ((∀ s ∈ ["complete", "error"], s = "error") → j'.status = "error") :=
  update_job_status_amended ["complete", "error"] jobRowW 50 (by decide) (by decide)
